/-
Verification of the Lennings particle-lenia core against its specification.

Shallow embedding of the JavaScript sources:
  - src/lenia.js            (ParticleLenia: simulation, harvest, reconstruction driver)
  - src/reconstruction-worker.js (k-d tree matching, SSIM / RGB-distance metrics)
  - src/unnamed/part_009    (mosaic worker: greedy luminance sort, kd-with-deletion,
                             clamped SSIM; histogram worker: quantized histogram matching)
  - src/unnamed/part_000    (game engine: digest system, callers of the harvest API)

Numbers: JavaScript floats are modelled by exact rationals where the code is
algebraic, and by real numbers where the code calls transcendental functions
(exp, pow, sin, sqrt).  Mutable state is translated to explicit state passing.
-/
import Mathlib

namespace Lennings

/-! ## computeOptimalDimensions (src/lenia.js lines 1008-1036)

JS: `for (let w = 1; w <= Math.ceil(Math.sqrt(eatenCount * aspectRatio)); w++) {
       const h = Math.floor(w / aspectRatio); if (h < 1) continue;
       const pixelCount = w * h;
       if (pixelCount <= eatenCount && pixelCount > bestPixelCount) { update best } }`
-/

/-- Result record of `computeOptimalDimensions`: `{width, height, pixelCount}`. -/
structure Dims where
  width : ℕ
  height : ℕ
  pixelCount : ℕ
deriving DecidableEq, Repr

theorem ceilSqrtQ_exists (x : ℚ) : ∃ n : ℕ, x ≤ (n : ℚ) ^ 2 := by
  refine ⟨⌈x⌉.toNat, ?_⟩
  rcases le_or_lt x 0 with hx | hx
  · exact hx.trans (by positivity)
  · have h1 : x ≤ (⌈x⌉ : ℚ) := Int.le_ceil x
    have h2 : (⌈x⌉ : ℚ) = ((⌈x⌉.toNat : ℤ) : ℚ) := by
      rw [Int.toNat_of_nonneg (Int.ceil_nonneg hx.le)]
    have h3 : (1 : ℚ) ≤ (⌈x⌉.toNat : ℚ) := by
      have : (1 : ℤ) ≤ ⌈x⌉ := Int.ceil_pos.mpr hx
      exact_mod_cast Int.toNat_le_toNat this
    calc x ≤ (⌈x⌉.toNat : ℚ) := by rw [h2] at h1; exact_mod_cast h1
    _ ≤ (⌈x⌉.toNat : ℚ) ^ 2 := by nlinarith

/-- JS `Math.ceil(Math.sqrt x)` for rational `x`: the least natural `n` with
`x ≤ n ^ 2` (for `x < 0` JS yields NaN and the loop body never runs; here the
value is `0`, so the loop range is empty as well). -/
def ceilSqrtQ (x : ℚ) : ℕ := Nat.find (ceilSqrtQ_exists x)

theorem ceilSqrtQ_mono {x y : ℚ} (h : x ≤ y) : ceilSqrtQ x ≤ ceilSqrtQ y :=
  Nat.find_mono fun _ hn => le_trans h hn

/-- JS `Math.floor(w / aspectRatio)` coerced to `ℕ`; a negative floor (negative
aspect ratio) maps to `0`, which the `h < 1` guard skips exactly as in JS. -/
def jsFloorDiv (w : ℕ) (a : ℚ) : ℕ := (⌊(w : ℚ) / a⌋).toNat

/-- One iteration of the width-search loop in `computeOptimalDimensions`:
compute `h = floor(w / aspectRatio)`, skip when `h < 1`, and adopt
`pixelCount = w * h` when it fits in the sample budget and beats the best. -/
def domStep (M : ℕ) (a : ℚ) (best : Dims) (w : ℕ) : Dims :=
  if jsFloorDiv w a < 1 then best
  else if w * jsFloorDiv w a ≤ M ∧ best.pixelCount < w * jsFloorDiv w a then
    ⟨w, jsFloorDiv w a, w * jsFloorDiv w a⟩
  else best

/-- `computeOptimalDimensions(eatenCount, aspectRatio)` from src/lenia.js:
returns `{0,0,0}` on zero samples, otherwise searches widths
`1 ≤ w ≤ ceil(sqrt(eatenCount * aspectRatio))` for the best pixel count. -/
def computeOptimalDimensions (eatenCount : ℕ) (aspectRatio : ℚ) : Dims :=
  if eatenCount = 0 then ⟨0, 0, 0⟩
  else
    (List.range' 1 (ceilSqrtQ ((eatenCount : ℚ) * aspectRatio))).foldl
      (domStep eatenCount aspectRatio) ⟨1, 1, 1⟩

theorem domStep_pixelCount_le (M : ℕ) (a : ℚ) (best : Dims) (w : ℕ) :
    best.pixelCount ≤ (domStep M a best w).pixelCount := by
  rw [domStep]
  split
  · exact le_refl _
  · split
    · next h => exact le_of_lt h.2
    · exact le_refl _

theorem foldl_domStep_ge_init (M : ℕ) (a : ℚ) (l : List ℕ) (best : Dims) :
    best.pixelCount ≤ (l.foldl (domStep M a) best).pixelCount := by
  induction l generalizing best with
  | nil => exact le_refl _
  | cons w l ih => exact le_trans (domStep_pixelCount_le M a best w) (ih _)

theorem foldl_domStep_ub (M : ℕ) (a : ℚ) (l : List ℕ) (best : Dims) (w : ℕ)
    (hw : w ∈ l) (hh : 1 ≤ jsFloorDiv w a) (hle : w * jsFloorDiv w a ≤ M) :
    w * jsFloorDiv w a ≤ (l.foldl (domStep M a) best).pixelCount := by
  induction l generalizing best with
  | nil => cases hw
  | cons v l ih =>
    rcases List.mem_cons.mp hw with rfl | hmem
    · refine le_trans ?_ (foldl_domStep_ge_init M a l (domStep M a best w))
      rw [domStep, if_neg (by omega)]
      split
      · exact le_refl _
      · next h =>
        push_neg at h
        exact h hle
    · exact ih _ hmem

theorem domStep_cases (M : ℕ) (a : ℚ) (best : Dims) (w : ℕ) :
    domStep M a best w = best ∨
      (1 ≤ jsFloorDiv w a ∧ w * jsFloorDiv w a ≤ M ∧
        (domStep M a best w).pixelCount = w * jsFloorDiv w a) := by
  rw [domStep]
  split
  · exact Or.inl rfl
  · next hv =>
    split
    · next hc => exact Or.inr ⟨by omega, hc.1, rfl⟩
    · exact Or.inl rfl

theorem foldl_domStep_cases (M : ℕ) (a : ℚ) (l : List ℕ) (best : Dims) :
    (l.foldl (domStep M a) best).pixelCount = best.pixelCount ∨
      ∃ w ∈ l, 1 ≤ jsFloorDiv w a ∧ w * jsFloorDiv w a ≤ M ∧
        (l.foldl (domStep M a) best).pixelCount = w * jsFloorDiv w a := by
  induction l generalizing best with
  | nil => exact Or.inl rfl
  | cons v l ih =>
    rw [List.foldl_cons]
    rcases ih (domStep M a best v) with h | ⟨w, hw, h1, h2, h3⟩
    · rcases domStep_cases M a best v with hd | ⟨hd1, hd2, hd3⟩
      · rw [hd] at h ⊢
        exact Or.inl h
      · exact Or.inr ⟨v, List.mem_cons_self v l, hd1, hd2, h.trans hd3⟩
    · exact Or.inr ⟨w, List.mem_cons_of_mem v hw, h1, h2, h3⟩

/-- Validity invariant carried by the width-search loop. -/
def DimsValid (M : ℕ) (d : Dims) : Prop :=
  1 ≤ d.width ∧ 1 ≤ d.height ∧ d.pixelCount = d.width * d.height ∧
    1 ≤ d.pixelCount ∧ d.pixelCount ≤ M

theorem domStep_valid (M : ℕ) (a : ℚ) (best : Dims) (w : ℕ)
    (h : DimsValid M best) : DimsValid M (domStep M a best w) := by
  rw [domStep]
  split
  · exact h
  · next hh =>
    split
    · next hc =>
      have hb := h.2.2.2.1
      have hpc : 1 ≤ w * jsFloorDiv w a := by
        have := hc.2
        omega
      refine ⟨?_, ?_, rfl, hpc, hc.1⟩
      · show 1 ≤ w
        rcases Nat.eq_zero_or_pos w with rfl | hw
        · simp at hpc
        · exact hw
      · show 1 ≤ jsFloorDiv w a
        omega
    · exact h

theorem foldl_domStep_valid (M : ℕ) (a : ℚ) (l : List ℕ) (best : Dims)
    (h : DimsValid M best) : DimsValid M (l.foldl (domStep M a) best) := by
  induction l generalizing best with
  | nil => exact h
  | cons w l ih => exact ih _ (domStep_valid M a best w h)

/-- C4: `computeOptimalDimensions` is monotone in the sample count: for a fixed
positive aspect ratio and `M1 ≤ M2`, the returned pixel count for `M2` is at
least that for `M1`, so across calls with growing harvested-sample counts the
pixel count never shrinks. -/
theorem computeOptimalDimensions_pixelCount_mono (a : ℚ) (ha : 0 < a)
    (M1 M2 : ℕ) (h : M1 ≤ M2) :
    (computeOptimalDimensions M1 a).pixelCount ≤
      (computeOptimalDimensions M2 a).pixelCount := by
  unfold computeOptimalDimensions
  rcases Nat.eq_zero_or_pos M1 with rfl | hM1
  · simp
  have hM2 : M2 ≠ 0 := by omega
  rw [if_neg (by omega), if_neg hM2]
  have hbound : ceilSqrtQ ((M1 : ℚ) * a) ≤ ceilSqrtQ ((M2 : ℚ) * a) :=
    ceilSqrtQ_mono (by
      have : (M1 : ℚ) ≤ (M2 : ℚ) := by exact_mod_cast h
      nlinarith)
  rcases foldl_domStep_cases M1 a
      (List.range' 1 (ceilSqrtQ ((M1 : ℚ) * a))) ⟨1, 1, 1⟩ with hc | ⟨w, hw, h1, h2, h3⟩
  · rw [hc]
    exact le_trans (le_refl 1)
      (foldl_domStep_ge_init M2 a _ ⟨1, 1, 1⟩)
  · rw [h3]
    refine foldl_domStep_ub M2 a _ ⟨1, 1, 1⟩ w ?_ h1 (le_trans h2 h)
    have hmem := List.mem_range'_1.mp hw
    exact List.mem_range'_1.mpr ⟨hmem.1, by omega⟩

/-- Witness for C4 at eatenCount 3 ≤ 7, aspect ratio 1. -/
theorem computeOptimalDimensions_pixelCount_mono_witness :
    (computeOptimalDimensions 3 1).pixelCount ≤
      (computeOptimalDimensions 7 1).pixelCount :=
  computeOptimalDimensions_pixelCount_mono 1 (by norm_num) 3 7 (by norm_num)

/-- C10: for at least one harvested sample and a positive aspect ratio,
`computeOptimalDimensions` returns `width ≥ 1`, `height ≥ 1`,
`pixelCount = width * height`, `pixelCount ≤ eatenCount`, and in particular a
nonzero pixel count — so the zero-pixel error branch of
`createCompressedReconstruction` is unreachable once a sample exists. -/
theorem computeOptimalDimensions_valid (M : ℕ) (hM : 1 ≤ M) (a : ℚ) (_ : 0 < a) :
    1 ≤ (computeOptimalDimensions M a).width ∧
      1 ≤ (computeOptimalDimensions M a).height ∧
      (computeOptimalDimensions M a).pixelCount =
        (computeOptimalDimensions M a).width * (computeOptimalDimensions M a).height ∧
      (computeOptimalDimensions M a).pixelCount ≤ M ∧
      (computeOptimalDimensions M a).pixelCount ≠ 0 := by
  have hvalid : DimsValid M (computeOptimalDimensions M a) := by
    unfold computeOptimalDimensions
    rw [if_neg (by omega)]
    exact foldl_domStep_valid M a _ ⟨1, 1, 1⟩ ⟨le_refl 1, le_refl 1, rfl, le_refl 1, hM⟩
  exact ⟨hvalid.1, hvalid.2.1, hvalid.2.2.1, hvalid.2.2.2.2, by
    have := hvalid.2.2.2.1; omega⟩

/-- Witness for C10 at eatenCount 5, aspect ratio 1. -/
theorem computeOptimalDimensions_valid_witness :
    1 ≤ (computeOptimalDimensions 5 1).width ∧
      1 ≤ (computeOptimalDimensions 5 1).height ∧
      (computeOptimalDimensions 5 1).pixelCount =
        (computeOptimalDimensions 5 1).width * (computeOptimalDimensions 5 1).height ∧
      (computeOptimalDimensions 5 1).pixelCount ≤ 5 ∧
      (computeOptimalDimensions 5 1).pixelCount ≠ 0 :=
  computeOptimalDimensions_valid 5 (by norm_num) 1 (by norm_num)

end Lennings

namespace Lennings

/-! ## Pixel harvest (src/lenia.js lines 967-1006) -/

/-- A harvested ("eaten") sample `{x, y, r, g, b}` as produced by
`getEatenPixels`. -/
structure EPix where
  x : ℕ
  y : ℕ
  r : ℚ
  g : ℚ
  b : ℚ
deriving DecidableEq, Repr

/-- The grid scan inside `getEatenPixels`: collect `{x, y, r, g, b}` for every
cell whose alpha channel is below the eaten threshold `0.1`, rows outer,
columns inner.  `pixels` is the RGBA float readback indexed as
`(y * width + x) * 4 + channel`. -/
def eatenPixelsScan (width height : ℕ) (pixels : ℕ → ℚ) : List EPix :=
  ((List.range height).map fun y =>
    (List.range width).filterMap fun x =>
      if pixels ((y * width + x) * 4 + 3) < 1/10 then
        some ⟨x, y, pixels ((y * width + x) * 4),
          pixels ((y * width + x) * 4 + 1), pixels ((y * width + x) * 4 + 2)⟩
      else none).flatten

/-- `getEatenPixels` (cache aside): scan of the fixed 512x512 resource grid. -/
def getEatenPixels (pixels : ℕ → ℚ) : List EPix :=
  eatenPixelsScan 512 512 pixels

theorem eatenPixelsScan_empty (width height : ℕ) (pixels : ℕ → ℚ)
    (h : ∀ y x, y < height → x < width →
      ¬ pixels ((y * width + x) * 4 + 3) < 1/10) :
    eatenPixelsScan width height pixels = [] := by
  unfold eatenPixelsScan
  rw [List.flatten_eq_nil_iff]
  intro l hl
  rw [List.mem_map] at hl
  obtain ⟨y, hy, rfl⟩ := hl
  rw [List.mem_range] at hy
  rw [List.filterMap_eq_nil_iff]
  intro x hx
  rw [List.mem_range] at hx
  rw [if_neg (h y x hy hx)]

/-- With zero resource cells below the eaten threshold, `getEatenPixels`
returns an empty list. -/
theorem getEatenPixels_empty (pixels : ℕ → ℚ)
    (h : ∀ y x, y < 512 → x < 512 →
      ¬ pixels ((y * 512 + x) * 4 + 3) < 1/10) :
    getEatenPixels pixels = [] :=
  eatenPixelsScan_empty 512 512 pixels h

/-- A fully intact resource field (all alpha 1) yields no harvested
samples. -/
theorem getEatenPixels_empty_witness : getEatenPixels (fun _ => 1) = [] :=
  getEatenPixels_empty (fun _ => 1) (fun _ _ _ _ => by norm_num)

/-! ## Digest exclusion (C5)

The digest caller in src/unnamed/part_000 (`takeDigest`, line 827) calls
`this.lenia.getEatenPixels(true, this.digestedPixelKeys)` and later
`getLastUsedPixelKeys()` (line 915); the `ParticleLenia` in src/lenia.js has
neither an excluded-keys parameter on `getEatenPixels` nor
`getLastUsedPixelKeys`, so the lenia revision implementing the subtraction is
not present under src/.  The subtraction itself is therefore modelled from the
spec below. -/

/-- Modelled from the spec: the excluded-keys-aware harvest entry point
`get_harvested_pixels(force_refresh, excluded_keys)`.  The spec states "The
digested-key set (keyed by `x,y`) is subtracted from this set before handing
samples to the Reconstruction Engine"; the scanned sample set is the grid scan
of `getEatenPixels`, and samples whose `(x, y)` key is in the excluded set are
removed. -/
def get_harvested_pixels (width height : ℕ) (pixels : ℕ → ℚ)
    (excludedKeys : List (ℕ × ℕ)) : List EPix :=
  (eatenPixelsScan width height pixels).filter
    fun p => decide ((p.x, p.y) ∉ excludedKeys)

/-- C5: no sample returned by `get_harvested_pixels` carries an `(x, y)` key
belonging to the excluded (digested) key set, so samples consumed by a
completed reconstruction cannot be handed out again within the session. -/
theorem get_harvested_pixels_excludes (width height : ℕ) (pixels : ℕ → ℚ)
    (excludedKeys : List (ℕ × ℕ)) (p : EPix)
    (hp : p ∈ get_harvested_pixels width height pixels excludedKeys) :
    (p.x, p.y) ∉ excludedKeys := by
  have := List.of_mem_filter hp
  simpa using this

/-- Witness for C5 on a 1x1 fully-eaten grid with an unrelated excluded key. -/
theorem get_harvested_pixels_excludes_witness :
    ((⟨0, 0, 0, 0, 0⟩ : EPix).x, (⟨0, 0, 0, 0, 0⟩ : EPix).y) ∉
      [((5 : ℕ), (5 : ℕ))] :=
  get_harvested_pixels_excludes 1 1 (fun _ => 0) [(5, 5)] ⟨0, 0, 0, 0, 0⟩
    (by norm_num [get_harvested_pixels, eatenPixelsScan, List.filterMap, List.filter])

end Lennings

namespace Lennings

/-! ## Async reconstruction coordinator (src/lenia.js lines 214-252, 874-961)

The worker `onmessage` handler mutates only the pending-request map; the
caller-visible reconstruction state (`reconstructionRGBd`, `reconstructionSSIM`,
`reconstructionScore`, `reconstructionCount`, `lastReconstructionDims`,
`compressedReconstruction`) is updated by `createCompressedReconstruction` only
after its promise resolves.  A message whose captured generation differs from
the current `reconstructionGeneration` deletes the pending entry and returns
without resolving or rejecting. -/

/-- A pending reconstruction request as stored in `reconstructionPendingRequests`:
the `dims` of the request and the generation captured at submission time. -/
structure PendingReq where
  generation : ℕ
  dims : Dims
deriving DecidableEq, Repr

/-- Fields of a worker reply used by the `onmessage` handler (the heavy
`result` buffer is opaque to the handler and omitted). -/
structure WorkerMsg where
  id : ℕ
  success : Bool
  rgbdError : ℚ
  ssimValue : ℚ
  ssimDistance : ℚ
  score : ℚ
deriving DecidableEq, Repr

/-- Caller-visible reconstruction coordinator state held on the
`ParticleLenia` object. -/
structure ReconCoordState where
  pendingRequests : List (ℕ × PendingReq)
  reconstructionGeneration : ℕ
  reconstructionRGBd : ℚ
  reconstructionSSIM : ℚ
  reconstructionScore : ℚ
  reconstructionCount : ℕ
  lastReconstructionDims : Option Dims
  compressedReconstruction : Option Dims
deriving DecidableEq, Repr

/-- What the handler does with the pending promise: resolve with the metric
payload, reject, or (for stale or unknown ids) nothing. -/
inductive WorkerOutcome where
  | resolved (rgbdError ssimValue ssimDistance score : ℚ)
  | rejected
deriving DecidableEq, Repr

/-- The `reconstructionWorker.onmessage` handler (src/lenia.js lines 222-240;
the re-created handler in `reloadResourceImage`, lines 899-917, is identical):
look up the pending request by id; if its captured generation differs from the
current generation the entry is deleted and nothing is resolved; otherwise the
entry is deleted and the promise is resolved (on success) or rejected.
`Map.delete` is modelled by filtering the association list on the key. -/
def onWorkerMessage (st : ReconCoordState) (m : WorkerMsg) :
    ReconCoordState × Option WorkerOutcome :=
  match st.pendingRequests.lookup m.id with
  | none => (st, none)
  | some req =>
    if req.generation ≠ st.reconstructionGeneration then
      ({ st with pendingRequests :=
          st.pendingRequests.filter fun e => e.1 != m.id }, none)
    else
      let st1 := { st with pendingRequests :=
          st.pendingRequests.filter fun e => e.1 != m.id }
      if m.success then
        (st1, some (.resolved m.rgbdError m.ssimValue m.ssimDistance m.score))
      else (st1, some .rejected)

theorem lookup_filter_ne {β : Type} (id : ℕ) (l : List (ℕ × β)) :
    (l.filter fun e => e.1 != id).lookup id = none := by
  induction l with
  | nil => rfl
  | cons e l ih =>
    by_cases h : e.1 = id
    · rw [List.filter_cons, if_neg (by simp [h])]
      exact ih
    · rw [List.filter_cons, if_pos (by simp [h])]
      have hne : (id == e.1) = false := by simp [Ne.symm h]
      simp [List.lookup, hne, ih]

theorem onWorkerMessage_stale (st : ReconCoordState) (m : WorkerMsg)
    (req : PendingReq) (hreq : st.pendingRequests.lookup m.id = some req)
    (hgen : req.generation ≠ st.reconstructionGeneration) :
    onWorkerMessage st m =
      ({ st with pendingRequests :=
          st.pendingRequests.filter fun e => e.1 != m.id }, none) := by
  unfold onWorkerMessage
  rw [hreq]
  dsimp only
  rw [if_pos hgen]

/-- C6: a worker result arriving with a captured generation different from the
current generation counter is silently discarded: the pending request is
removed without resolving or rejecting, and every caller-visible
reconstruction field (metrics, count, dims, cached reconstruction, generation)
is left untouched. -/
theorem staleWorkerResult_discarded (st : ReconCoordState) (m : WorkerMsg)
    (req : PendingReq) (hreq : st.pendingRequests.lookup m.id = some req)
    (hgen : req.generation ≠ st.reconstructionGeneration) :
    (onWorkerMessage st m).2 = none ∧
      ((onWorkerMessage st m).1).pendingRequests.lookup m.id = none ∧
      (onWorkerMessage st m).1.reconstructionRGBd = st.reconstructionRGBd ∧
      (onWorkerMessage st m).1.reconstructionSSIM = st.reconstructionSSIM ∧
      (onWorkerMessage st m).1.reconstructionScore = st.reconstructionScore ∧
      (onWorkerMessage st m).1.reconstructionCount = st.reconstructionCount ∧
      (onWorkerMessage st m).1.lastReconstructionDims = st.lastReconstructionDims ∧
      (onWorkerMessage st m).1.compressedReconstruction = st.compressedReconstruction ∧
      (onWorkerMessage st m).1.reconstructionGeneration = st.reconstructionGeneration := by
  rw [onWorkerMessage_stale st m req hreq hgen]
  exact ⟨rfl, lookup_filter_ne m.id st.pendingRequests, rfl, rfl, rfl, rfl, rfl,
    rfl, rfl⟩

/-- Witness for C6: a concrete state at generation 5 holding one pending
request captured at generation 4 discards the matching worker result. -/
theorem staleWorkerResult_discarded_witness :
    (onWorkerMessage
        ⟨[(1, ⟨4, ⟨2, 2, 4⟩⟩)], 5, 0, 0, 0, 0, none, none⟩
        ⟨1, true, 3, 1/2, 1/2, 50⟩).2 = none ∧
      ((onWorkerMessage
        ⟨[(1, ⟨4, ⟨2, 2, 4⟩⟩)], 5, 0, 0, 0, 0, none, none⟩
        ⟨1, true, 3, 1/2, 1/2, 50⟩).1).pendingRequests.lookup 1 = none ∧
      (onWorkerMessage
        ⟨[(1, ⟨4, ⟨2, 2, 4⟩⟩)], 5, 0, 0, 0, 0, none, none⟩
        ⟨1, true, 3, 1/2, 1/2, 50⟩).1.reconstructionRGBd = 0 ∧
      (onWorkerMessage
        ⟨[(1, ⟨4, ⟨2, 2, 4⟩⟩)], 5, 0, 0, 0, 0, none, none⟩
        ⟨1, true, 3, 1/2, 1/2, 50⟩).1.reconstructionSSIM = 0 ∧
      (onWorkerMessage
        ⟨[(1, ⟨4, ⟨2, 2, 4⟩⟩)], 5, 0, 0, 0, 0, none, none⟩
        ⟨1, true, 3, 1/2, 1/2, 50⟩).1.reconstructionScore = 0 ∧
      (onWorkerMessage
        ⟨[(1, ⟨4, ⟨2, 2, 4⟩⟩)], 5, 0, 0, 0, 0, none, none⟩
        ⟨1, true, 3, 1/2, 1/2, 50⟩).1.reconstructionCount = 0 ∧
      (onWorkerMessage
        ⟨[(1, ⟨4, ⟨2, 2, 4⟩⟩)], 5, 0, 0, 0, 0, none, none⟩
        ⟨1, true, 3, 1/2, 1/2, 50⟩).1.lastReconstructionDims = none ∧
      (onWorkerMessage
        ⟨[(1, ⟨4, ⟨2, 2, 4⟩⟩)], 5, 0, 0, 0, 0, none, none⟩
        ⟨1, true, 3, 1/2, 1/2, 50⟩).1.compressedReconstruction = none ∧
      (onWorkerMessage
        ⟨[(1, ⟨4, ⟨2, 2, 4⟩⟩)], 5, 0, 0, 0, 0, none, none⟩
        ⟨1, true, 3, 1/2, 1/2, 50⟩).1.reconstructionGeneration = 5 :=
  staleWorkerResult_discarded
    ⟨[(1, ⟨4, ⟨2, 2, 4⟩⟩)], 5, 0, 0, 0, 0, none, none⟩
    ⟨1, true, 3, 1/2, 1/2, 50⟩ ⟨4, ⟨2, 2, 4⟩⟩ (by rfl) (by norm_num)

end Lennings

namespace Lennings

/-! ## Energy life-cycle (C9)

Energy datapaths of the shader passes in src/lenia.js:
  - per-tick `step` (lines 645-704): passive decay, feeding, then
    `clamp(myEnergy, 0.0, 1.0)`;
  - GPU `processReproduction` pass 1 (lines 1737-1755): eligibility gate and
    `energy - reproCost`;
  - GPU pass 2 (line 1819) and `cpuReproductionStep` (line 389): child energy
    `reproCost * 0.5`;
  - `cpuReproductionStep` (line 417): parent pays
    `Math.max(0.0, energy - reproCost)`;
  - `reset` (line 537): initial energy `1.0`. -/

/-- GLSL `clamp(x, lo, hi)`. -/
def clampQ (x lo hi : ℚ) : ℚ := min (max x lo) hi

/-- Energy component of the per-tick `step` shader: subtract `energyDecay`,
add `foodValue * feedRate`, then `clamp(myEnergy, 0.0, 1.0)`. -/
def stepEnergy (energy energyDecay foodValue feedRate : ℚ) : ℚ :=
  clampQ (energy - energyDecay + foodValue * feedRate) 0 1

/-- Energy component of GPU `processReproduction` pass 1: a particle with
`energy ≥ reproThreshold` and `age ≥ reproMinAge` pays `reproCost`, otherwise
its energy is unchanged. -/
def reproPassOneEnergy (energy age reproThreshold reproMinAge reproCost : ℚ) : ℚ :=
  if reproThreshold ≤ energy ∧ reproMinAge ≤ age then energy - reproCost
  else energy

/-- Energy of a newly spawned child, GPU pass 2: `reproCost * 0.5`. -/
def gpuChildEnergy (reproCost : ℚ) : ℚ := reproCost * (1/2)

/-- Energy of a newly spawned child, `cpuReproductionStep`: `reproCost * 0.5`. -/
def cpuChildEnergy (reproCost : ℚ) : ℚ := reproCost * (1/2)

/-- Parent energy after `cpuReproductionStep` charges the single reproduction
cost: `Math.max(0.0, energy - reproCost)`. -/
def cpuParentEnergyAfterRepro (energy reproCost : ℚ) : ℚ :=
  max 0 (energy - reproCost)

/-- Initial particle energy written by `reset`. -/
def resetEnergy : ℚ := 1

/-- C9: with the shipped life-cycle parameters (`0 ≤ reproCost`,
`reproCost ≤ reproThreshold`, `reproCost ≤ 2`; the defaults are
`reproCost = 0.4`, `reproThreshold = 0.8`), every operation that writes a live
particle's energy keeps it in `[0, 1]`: the per-tick step clamps
unconditionally, the GPU reproduction deduction starting from an in-range
energy stays in range, both child energies are in range, the CPU parent charge
stays in range, and the reset energy is in range. -/
theorem energy_clamp (energyDecay foodValue feedRate energy age
    reproThreshold reproMinAge reproCost : ℚ)
    (hc0 : 0 ≤ reproCost) (hct : reproCost ≤ reproThreshold)
    (hc2 : reproCost ≤ 2) (he0 : 0 ≤ energy) (he1 : energy ≤ 1) :
    (0 ≤ stepEnergy energy energyDecay foodValue feedRate ∧
      stepEnergy energy energyDecay foodValue feedRate ≤ 1) ∧
    (0 ≤ reproPassOneEnergy energy age reproThreshold reproMinAge reproCost ∧
      reproPassOneEnergy energy age reproThreshold reproMinAge reproCost ≤ 1) ∧
    (0 ≤ gpuChildEnergy reproCost ∧ gpuChildEnergy reproCost ≤ 1) ∧
    (0 ≤ cpuChildEnergy reproCost ∧ cpuChildEnergy reproCost ≤ 1) ∧
    (0 ≤ cpuParentEnergyAfterRepro energy reproCost ∧
      cpuParentEnergyAfterRepro energy reproCost ≤ 1) ∧
    (0 ≤ resetEnergy ∧ resetEnergy ≤ 1) := by
  refine ⟨⟨?_, ?_⟩, ⟨?_, ?_⟩, ⟨?_, ?_⟩, ⟨?_, ?_⟩, ⟨?_, ?_⟩, ⟨?_, ?_⟩⟩
  · exact le_min (le_max_right _ _) (by norm_num)
  · exact min_le_right _ _
  · unfold reproPassOneEnergy
    split
    · next h => linarith [h.1]
    · exact he0
  · unfold reproPassOneEnergy
    split
    · linarith
    · exact he1
  · unfold gpuChildEnergy
    linarith
  · unfold gpuChildEnergy
    linarith
  · unfold cpuChildEnergy
    linarith
  · unfold cpuChildEnergy
    linarith
  · exact le_max_left _ _
  · unfold cpuParentEnergyAfterRepro
    rw [max_le_iff]
    constructor <;> linarith
  · unfold resetEnergy
    norm_num
  · unfold resetEnergy
    norm_num

/-- Witness for C9 at the default parameters (`energyDecay = 0.001`,
`feedRate = 0.1`, `reproThreshold = 0.8`, `reproMinAge = 100`,
`reproCost = 0.4`), a live particle with energy `0.9`, age `150`, sampled
food value `0.5`. -/
theorem energy_clamp_witness :
    (0 ≤ stepEnergy (9/10) (1/1000) (1/2) (1/10) ∧
      stepEnergy (9/10) (1/1000) (1/2) (1/10) ≤ 1) ∧
    (0 ≤ reproPassOneEnergy (9/10) 150 (8/10) 100 (4/10) ∧
      reproPassOneEnergy (9/10) 150 (8/10) 100 (4/10) ≤ 1) ∧
    (0 ≤ gpuChildEnergy (4/10) ∧ gpuChildEnergy (4/10) ≤ 1) ∧
    (0 ≤ cpuChildEnergy (4/10) ∧ cpuChildEnergy (4/10) ≤ 1) ∧
    (0 ≤ cpuParentEnergyAfterRepro (9/10) (4/10) ∧
      cpuParentEnergyAfterRepro (9/10) (4/10) ≤ 1) ∧
    (0 ≤ resetEnergy ∧ resetEnergy ≤ 1) :=
  energy_clamp (1/1000) (1/2) (1/10) (9/10) 150 (8/10) 100 (4/10)
    (by norm_num) (by norm_num) (by norm_num) (by norm_num) (by norm_num)

end Lennings

namespace Lennings

/-! ## SSIM metrics (C2)

Two implementations in the sources:
  - `SSIMErrorMetric.calculate` (src/reconstruction-worker.js lines 85-168;
    textually duplicated in src/lenia.js `computeReconstructionSync`):
    nearest-neighbor upscale of the reconstruction to the original
    resolution, global mean/variance/covariance of the luminances, SSIM
    formula — returned WITHOUT clamping;
  - `calculateSSIM` (src/unnamed/part_009 lines 26-64): same global formula on
    two same-sized images, result clamped by
    `Math.max(0, Math.min(1, numerator / denominator))`.

Image data is an RGBA byte buffer modelled as `ℕ → ℚ` indexed by
`pixel * 4 + channel`. -/

/-- Standard luminance weights applied to one RGBA pixel of a data buffer:
`0.299 * data[4i] + 0.587 * data[4i+1] + 0.114 * data[4i+2]`. -/
def lumAt (data : ℕ → ℚ) (i : ℕ) : ℚ :=
  (299/1000) * data (i * 4) + (587/1000) * data (i * 4 + 1) +
    (114/1000) * data (i * 4 + 2)

/-- Nearest-neighbor upscale used by the error metrics: original pixel
`(ox, oy)` reads reconstruction pixel
`(floor(ox/oW * rW), floor(oy/oH * rH))`. -/
def upscaledAt (resultData : ℕ → ℚ) (rW rH oW oH : ℕ) (i : ℕ) : ℕ → ℚ :=
  fun c =>
    let ox := i % oW
    let oy := i / oW
    let rx := (⌊((ox : ℚ) / (oW : ℚ)) * (rW : ℚ)⌋).toNat
    let ry := (⌊((oy : ℚ) / (oH : ℚ)) * (rH : ℚ)⌋).toNat
    resultData ((ry * rW + rx) * 4 + c)

/-- Luminance of the upscaled reconstruction at original pixel `i`. -/
def upscaledLumAt (resultData : ℕ → ℚ) (rW rH oW oH : ℕ) (i : ℕ) : ℚ :=
  (299/1000) * upscaledAt resultData rW rH oW oH i 0 +
    (587/1000) * upscaledAt resultData rW rH oW oH i 1 +
    (114/1000) * upscaledAt resultData rW rH oW oH i 2

/-- Mean of `f` over `n` samples. -/
def meanOver (n : ℕ) (f : ℕ → ℚ) : ℚ := (∑ i ∈ Finset.range n, f i) / n

/-- The `ssim` value computed by `SSIMErrorMetric.calculate`
(src/reconstruction-worker.js lines 86-152): upscale, global means, variances
and covariance of the luminances, then
`((2 μx μy + C1)(2 σxy + C2)) / ((μx² + μy² + C1)(σx² + σy² + C2))` —
with no clamping of the result. -/
def SSIMErrorMetric_ssim (resultData originalData : ℕ → ℚ)
    (rW rH oW oH : ℕ) : ℚ :=
  let n := oW * oH
  let origLum := fun i => lumAt originalData i
  let resLum := fun i => upscaledLumAt resultData rW rH oW oH i
  let meanX := meanOver n origLum
  let meanY := meanOver n resLum
  let varX := meanOver n (fun i => (origLum i - meanX) * (origLum i - meanX))
  let varY := meanOver n (fun i => (resLum i - meanY) * (resLum i - meanY))
  let covXY := meanOver n (fun i => (origLum i - meanX) * (resLum i - meanY))
  let c1 := ((1/100) * 255) * ((1/100) * 255)
  let c2 := ((3/100) * 255) * ((3/100) * 255)
  ((2 * meanX * meanY + c1) * (2 * covXY + c2)) /
    ((meanX * meanX + meanY * meanY + c1) * (varX + varY + c2))

/-- `calculateSSIM(img1, img2, width, height)` (src/unnamed/part_009 lines
26-64): global-statistics SSIM of two same-sized images, clamped by
`Math.max(0, Math.min(1, numerator / denominator))`. -/
def calculateSSIM (img1 img2 : ℕ → ℚ) (width height : ℕ) : ℚ :=
  let n := width * height
  let gray1 := fun i => lumAt img1 i
  let gray2 := fun i => lumAt img2 i
  let mean1 := meanOver n gray1
  let mean2 := meanOver n gray2
  let var1 := meanOver n (fun i => (gray1 i - mean1) * (gray1 i - mean1))
  let var2 := meanOver n (fun i => (gray2 i - mean2) * (gray2 i - mean2))
  let covar := meanOver n (fun i => (gray1 i - mean1) * (gray2 i - mean2))
  let c1 := ((1/100) * 255) * ((1/100) * 255)
  let c2 := ((3/100) * 255) * ((3/100) * 255)
  max 0 (min 1
    (((2 * mean1 * mean2 + c1) * (2 * covar + c2)) /
      ((mean1 * mean1 + mean2 * mean2 + c1) * (var1 + var2 + c2))))

theorem upscaledAt_self (data : ℕ → ℚ) (oW oH : ℕ) (hW : oW ≠ 0) (hH : oH ≠ 0)
    (i c : ℕ) : upscaledAt data oW oH oW oH i c = data (i * 4 + c) := by
  unfold upscaledAt
  have hx : (⌊((i % oW : ℕ) : ℚ) / (oW : ℚ) * (oW : ℚ)⌋).toNat = i % oW := by
    rw [div_mul_cancel₀ _ (by exact_mod_cast hW)]
    rw [Int.floor_natCast]
    exact Int.toNat_natCast _
  have hy : (⌊((i / oW : ℕ) : ℚ) / (oH : ℚ) * (oH : ℚ)⌋).toNat = i / oW := by
    rw [div_mul_cancel₀ _ (by exact_mod_cast hH)]
    rw [Int.floor_natCast]
    exact Int.toNat_natCast _
  simp only [hx, hy]
  have hi : i / oW * oW + i % oW = i := by
    rw [Nat.mul_comm (i / oW) oW]
    exact Nat.div_add_mod i oW
  rw [hi]

theorem meanOver_congr (n : ℕ) (f g : ℕ → ℚ) (h : ∀ i < n, f i = g i) :
    meanOver n f = meanOver n g := by
  unfold meanOver
  congr 1
  exact Finset.sum_congr rfl fun i hi => h i (Finset.mem_range.mp hi)

/-- Helper: the unclamped global-SSIM of an image against itself is exactly 1
whenever the two luminance streams agree pointwise below `n`. -/
theorem ssim_formula_self (n : ℕ) (f g : ℕ → ℚ) (h : ∀ i < n, f i = g i) :
    ((2 * meanOver n f * meanOver n g + ((1/100) * 255) * ((1/100) * 255)) *
        (2 * meanOver n (fun i => (f i - meanOver n f) * (g i - meanOver n g)) +
          ((3/100) * 255) * ((3/100) * 255))) /
      ((meanOver n f * meanOver n f + meanOver n g * meanOver n g +
          ((1/100) * 255) * ((1/100) * 255)) *
        (meanOver n (fun i => (f i - meanOver n f) * (f i - meanOver n f)) +
          meanOver n (fun i => (g i - meanOver n g) * (g i - meanOver n g)) +
          ((3/100) * 255) * ((3/100) * 255))) = 1 := by
  have hg : meanOver n g = meanOver n f := meanOver_congr n g f fun i hi => (h i hi).symm
  rw [hg]
  have hcov : meanOver n (fun i => (f i - meanOver n f) * (g i - meanOver n f)) =
      meanOver n (fun i => (f i - meanOver n f) * (f i - meanOver n f)) :=
    meanOver_congr n _ _ fun i hi => by rw [h i hi]
  have hvarg : meanOver n (fun i => (g i - meanOver n f) * (g i - meanOver n f)) =
      meanOver n (fun i => (f i - meanOver n f) * (f i - meanOver n f)) :=
    meanOver_congr n _ _ fun i hi => by rw [h i hi]
  rw [hcov, hvarg]
  have hvar : 0 ≤ meanOver n (fun i => (f i - meanOver n f) * (f i - meanOver n f)) := by
    unfold meanOver
    apply div_nonneg
    · exact Finset.sum_nonneg fun i _ => mul_self_nonneg _
    · exact_mod_cast Nat.zero_le n
  have hmu : 0 ≤ meanOver n f * meanOver n f := mul_self_nonneg _
  rw [div_eq_one_iff_eq (ne_of_gt (mul_pos (by nlinarith) (by nlinarith)))]
  ring

/-- C2 (amended): `calculateSSIM` is clamped into `[0, 1]` for all inputs, and
both SSIM implementations evaluate to exactly 1 when the image is compared
with itself at full resolution (`SSIMErrorMetric` with the reconstruction
equal to the original at the original size, `calculateSSIM` with two equal
buffers). -/
theorem ssim_bounds_and_self (img : ℕ → ℚ) (img1 img2 : ℕ → ℚ)
    (oW oH w h : ℕ) (hW : oW ≠ 0) (hH : oH ≠ 0) :
    (0 ≤ calculateSSIM img1 img2 w h ∧ calculateSSIM img1 img2 w h ≤ 1) ∧
      SSIMErrorMetric_ssim img img oW oH oW oH = 1 ∧
      calculateSSIM img img w h = 1 := by
  refine ⟨⟨le_max_left _ _, ?_⟩, ?_, ?_⟩
  · exact max_le (by norm_num) (min_le_left _ _)
  · unfold SSIMErrorMetric_ssim
    have hlum : ∀ i < oW * oH,
        lumAt img i = upscaledLumAt img oW oH oW oH i := by
      intro i _
      unfold lumAt upscaledLumAt
      rw [upscaledAt_self img oW oH hW hH i 0, upscaledAt_self img oW oH hW hH i 1,
        upscaledAt_self img oW oH hW hH i 2]
      norm_num
    exact ssim_formula_self (oW * oH) (fun i => lumAt img i)
      (fun i => upscaledLumAt img oW oH oW oH i) hlum
  · unfold calculateSSIM
    dsimp only
    rw [ssim_formula_self (w * h) (fun i => lumAt img i) (fun i => lumAt img i)
      (fun _ _ => rfl)]
    norm_num

/-- Witness for C2 (amended) on a concrete 2x1 image. -/
theorem ssim_bounds_and_self_witness :
    (0 ≤ calculateSSIM (fun i => if i < 4 then 10 else 200)
        (fun i => if i % 2 = 0 then 30 else 60) 2 1 ∧
      calculateSSIM (fun i => if i < 4 then 10 else 200)
        (fun i => if i % 2 = 0 then 30 else 60) 2 1 ≤ 1) ∧
      SSIMErrorMetric_ssim (fun i => if i < 4 then 10 else 200)
        (fun i => if i < 4 then 10 else 200) 2 1 2 1 = 1 ∧
      calculateSSIM (fun i => if i < 4 then 10 else 200)
        (fun i => if i < 4 then 10 else 200) 2 1 = 1 :=
  ssim_bounds_and_self (fun i => if i < 4 then 10 else 200)
    (fun i => if i < 4 then 10 else 200) (fun i => if i % 2 = 0 then 30 else 60)
    2 1 2 1 (by norm_num) (by norm_num)

end Lennings

namespace Lennings

/-- C2 counterexample: the `ssim` value computed by
`SSIMErrorMetric.calculate` (the metric used by the reconstruction pipeline in
src/lenia.js and src/reconstruction-worker.js) is NOT clamped to `[0, 1]`: for
the 2x1 original with gray levels `(0, 255)` and the reconstruction
`(255, 0)`, the anti-correlated luminances make the computed ssim negative. -/
theorem SSIMErrorMetric_ssim_negative :
    SSIMErrorMetric_ssim (fun i => if i < 4 then 255 else 0)
      (fun i => if i < 4 then 0 else 255) 2 1 2 1 < 0 := by
  unfold SSIMErrorMetric_ssim upscaledLumAt upscaledAt lumAt meanOver
  norm_num [Finset.sum_range_succ]

end Lennings

namespace Lennings

/-! ## k-d tree nearest-unused matching (C1, strategy 1)

From src/reconstruction-worker.js (`KDNode`, `KDTree`, `performKDTreeMatching`,
lines 269-423); `computeReconstructionSync` in src/lenia.js (lines 1274-1395)
duplicates the same classes and loop.  The mutable `used` flag on tree nodes is
translated to a set (list) of used sample indices threaded through the loop;
node identity is the sample index, which `buildTree` never duplicates. -/

/-- `squaredDistance` (reconstruction-worker.js lines 261-266). -/
def distSq (r1 g1 b1 r2 g2 b2 : ℚ) : ℚ :=
  (r1 - r2) * (r1 - r2) + (g1 - g2) * (g1 - g2) + (b1 - b2) * (b1 - b2)

/-- `KDNode.getCoordinate`: splitting coordinate of a stored pixel at a given
depth (`0 = r, 1 = g, 2 = b`). -/
def coordAt (p : EPix) (depth : ℕ) : ℚ :=
  if depth % 3 = 0 then p.r else if depth % 3 = 1 then p.g else p.b

/-- The target color component for the splitting dimension at a given depth. -/
def targetCoord (tr tg tb : ℚ) (depth : ℕ) : ℚ :=
  if depth % 3 = 0 then tr else if depth % 3 = 1 then tg else tb

/-- A k-d tree over `(pixel, index)` pairs; the JS `used` flag lives outside
the tree as a set of indices. -/
inductive KDT where
  | nil : KDT
  | node (px : EPix) (idx : ℕ) (left right : KDT) : KDT

/-- All `(pixel, index)` pairs stored in a tree. -/
def KDT.nodes : KDT → List (EPix × ℕ)
  | .nil => []
  | .node p i l r => (p, i) :: (l.nodes ++ r.nodes)

/-- `KDTree.buildTree`: sort by the current dimension, put the median at the
node, recurse on the two halves. -/
def buildTree : List (EPix × ℕ) → ℕ → KDT
  | [], _ => .nil
  | [e], _ => .node e.1 e.2 .nil .nil
  | e1 :: e2 :: rest, depth =>
    let sorted := (e1 :: e2 :: rest).insertionSort
      (fun a b => coordAt a.1 depth ≤ coordAt b.1 depth)
    .node (sorted.getD (sorted.length / 2) e1).1
      (sorted.getD (sorted.length / 2) e1).2
      (buildTree (sorted.take (sorted.length / 2)) (depth + 1))
      (buildTree (sorted.drop (sorted.length / 2 + 1)) (depth + 1))
termination_by l _ => l.length
decreasing_by
  · simp only [List.length_take, List.length_insertionSort, List.length_cons]
    omega
  · simp only [List.length_drop, List.length_insertionSort, List.length_cons]
    omega

theorem buildTree_nodes_perm (n : ℕ) :
    ∀ l : List (EPix × ℕ), l.length ≤ n → ∀ depth,
      List.Perm (buildTree l depth).nodes l := by
  induction n with
  | zero =>
    intro l hl depth
    rw [List.length_eq_zero.mp (Nat.le_zero.mp hl)]
    simp [buildTree, KDT.nodes]
  | succ n ih =>
    intro l hl depth
    rcases l with _ | ⟨e1, l2⟩
    · simp [buildTree, KDT.nodes]
    rcases l2 with _ | ⟨e2, rest⟩
    · simp [buildTree, KDT.nodes]
    rw [buildTree, KDT.nodes]
    have hsl : ((e1 :: e2 :: rest).insertionSort
        (fun a b => coordAt a.1 depth ≤ coordAt b.1 depth)).length =
        rest.length + 2 := by
      rw [List.length_insertionSort]
      simp
    set sorted := (e1 :: e2 :: rest).insertionSort
      (fun a b => coordAt a.1 depth ≤ coordAt b.1 depth) with hsorted
    set m := sorted.length / 2 with hm
    have hrest : rest.length + 2 ≤ n + 1 := by
      have := hl
      simp only [List.length_cons] at this
      omega
    have hmlt : m < sorted.length := by omega
    have htk : (sorted.take m).length ≤ n := by
      rw [List.length_take]
      omega
    have hdr : (sorted.drop (m + 1)).length ≤ n := by
      rw [List.length_drop]
      omega
    have ptk := ih (sorted.take m) htk (depth + 1)
    have pdr := ih (sorted.drop (m + 1)) hdr (depth + 1)
    have hgetD : sorted.getD m e1 = sorted[m] := List.getD_eq_getElem sorted e1 hmlt
    have hdropm : sorted.drop m = sorted[m] :: sorted.drop (m + 1) :=
      List.drop_eq_getElem_cons hmlt
    have hsplit : List.Perm (sorted[m] :: ((sorted.take m) ++ sorted.drop (m + 1)))
        sorted := by
      refine List.Perm.trans List.perm_middle.symm ?_
      rw [← hdropm, List.take_append_drop]
    refine List.Perm.trans ?_ (List.Perm.trans hsplit (List.perm_insertionSort _ _))
    rw [hgetD]
    exact List.Perm.cons _ (List.Perm.append ptk pdr)

/-- Membership produced by one `search` step: the result is either the incoming
best or an unused node of the tree. -/
def SearchRes (t : KDT) (used : List ℕ)
    (res best : Option ((EPix × ℕ) × ℚ)) : Prop :=
  res = best ∨ ∃ p i d, res = some ((p, i), d) ∧ (p, i) ∈ t.nodes ∧ i ∉ used

/-- JS comparison `dist < bestDistance` where an absent best means
`bestDistance = Infinity`. -/
def ltBest (d : ℚ) (best : Option ((EPix × ℕ) × ℚ)) : Bool :=
  match best with
  | none => true
  | some (_, bd) => decide (d < bd)

/-- `KDTree.findNearestUnused`'s recursive `search`
(reconstruction-worker.js lines 320-363), with the mutable
`bestNode`/`bestDistance` pair threaded as an optional accumulator: a used
node is skipped but both subtrees are still searched; an unused node updates
the best if strictly closer; the near side (by the splitting plane) is
searched first and the far side only when the plane distance still beats the
current best. -/
def searchKD (used : List ℕ) (tr tg tb : ℚ) :
    KDT → ℕ → Option ((EPix × ℕ) × ℚ) → Option ((EPix × ℕ) × ℚ)
  | .nil, _, best => best
  | .node p i lt rt, depth, best =>
    if i ∈ used then
      searchKD used tr tg tb rt (depth + 1)
        (searchKD used tr tg tb lt (depth + 1) best)
    else
      let d := distSq tr tg tb p.r p.g p.b
      let best1 := if ltBest d best then some ((p, i), d) else best
      let tv := targetCoord tr tg tb depth
      let nv := coordAt p depth
      if tv < nv then
        let best2 := searchKD used tr tg tb lt (depth + 1) best1
        if ltBest ((tv - nv) * (tv - nv)) best2 then
          searchKD used tr tg tb rt (depth + 1) best2
        else best2
      else
        let best2 := searchKD used tr tg tb rt (depth + 1) best1
        if ltBest ((tv - nv) * (tv - nv)) best2 then
          searchKD used tr tg tb lt (depth + 1) best2
        else best2

theorem searchRes_mono {t1 t2 : KDT} {used : List ℕ}
    {res best : Option ((EPix × ℕ) × ℚ)}
    (hsub : ∀ e, e ∈ t1.nodes → e ∈ t2.nodes) (h : SearchRes t1 used res best) :
    SearchRes t2 used res best := by
  rcases h with h | ⟨p, i, d, h1, h2, h3⟩
  · exact Or.inl h
  · exact Or.inr ⟨p, i, d, h1, hsub _ h2, h3⟩

theorem searchRes_trans {t : KDT} {used : List ℕ}
    {a b c : Option ((EPix × ℕ) × ℚ)}
    (h1 : SearchRes t used b a) (h2 : SearchRes t used c b) :
    SearchRes t used c a := by
  rcases h2 with h2 | ⟨p, i, d, hc, hm, hu⟩
  · rw [h2]
    exact h1
  · exact Or.inr ⟨p, i, d, hc, hm, hu⟩

theorem searchRes_leaf (tnode : KDT) (used : List ℕ) (q : ℚ)
    (fA fB : Option ((EPix × ℕ) × ℚ) → Option ((EPix × ℕ) × ℚ))
    (v best : Option ((EPix × ℕ) × ℚ))
    (hv : SearchRes tnode used v best)
    (hA : ∀ b, SearchRes tnode used (fA b) b)
    (hB : ∀ b, SearchRes tnode used (fB b) b) :
    SearchRes tnode used (if ltBest q (fA v) then fB (fA v) else fA v) best := by
  split
  · exact searchRes_trans (searchRes_trans hv (hA v)) (hB _)
  · exact searchRes_trans hv (hA v)

theorem searchKD_spec (used : List ℕ) (tr tg tb : ℚ) (t : KDT) :
    ∀ (depth : ℕ) (best : Option ((EPix × ℕ) × ℚ)),
      SearchRes t used (searchKD used tr tg tb t depth best) best := by
  induction t with
  | nil => intro depth best; exact Or.inl rfl
  | node p i lt rt ihl ihr =>
    intro depth best
    have hsubl : ∀ e, e ∈ lt.nodes → e ∈ (KDT.node p i lt rt).nodes := by
      intro e he
      rw [KDT.nodes]
      exact List.mem_cons_of_mem _ (List.mem_append_left _ he)
    have hsubr : ∀ e, e ∈ rt.nodes → e ∈ (KDT.node p i lt rt).nodes := by
      intro e he
      rw [KDT.nodes]
      exact List.mem_cons_of_mem _ (List.mem_append_right _ he)
    rw [searchKD]
    by_cases hu : i ∈ used
    · rw [if_pos hu]
      exact searchRes_trans
        (searchRes_mono hsubl (ihl (depth + 1) best))
        (searchRes_mono hsubr (ihr (depth + 1) _))
    · rw [if_neg hu]
      dsimp only
      have hself : (p, i) ∈ (KDT.node p i lt rt).nodes := by
        rw [KDT.nodes]
        exact List.mem_cons_self _ _
      by_cases h1 : ltBest (distSq tr tg tb p.r p.g p.b) best = true
      · rw [if_pos h1]
        have hv : SearchRes (KDT.node p i lt rt) used
            (some ((p, i), distSq tr tg tb p.r p.g p.b)) best :=
          Or.inr ⟨p, i, _, rfl, hself, hu⟩
        by_cases h2 : targetCoord tr tg tb depth < coordAt p depth
        · rw [if_pos h2]
          exact searchRes_leaf (KDT.node p i lt rt) used _
            (searchKD used tr tg tb lt (depth + 1))
            (searchKD used tr tg tb rt (depth + 1))
            (some ((p, i), distSq tr tg tb p.r p.g p.b)) best hv
            (fun b => searchRes_mono hsubl (ihl _ b))
            (fun b => searchRes_mono hsubr (ihr _ b))
        · rw [if_neg h2]
          exact searchRes_leaf (KDT.node p i lt rt) used _
            (searchKD used tr tg tb rt (depth + 1))
            (searchKD used tr tg tb lt (depth + 1))
            (some ((p, i), distSq tr tg tb p.r p.g p.b)) best hv
            (fun b => searchRes_mono hsubr (ihr _ b))
            (fun b => searchRes_mono hsubl (ihl _ b))
      · rw [if_neg h1]
        have hv : SearchRes (KDT.node p i lt rt) used best best := Or.inl rfl
        by_cases h2 : targetCoord tr tg tb depth < coordAt p depth
        · rw [if_pos h2]
          exact searchRes_leaf (KDT.node p i lt rt) used _
            (searchKD used tr tg tb lt (depth + 1))
            (searchKD used tr tg tb rt (depth + 1)) best best hv
            (fun b => searchRes_mono hsubl (ihl _ b))
            (fun b => searchRes_mono hsubr (ihr _ b))
        · rw [if_neg h2]
          exact searchRes_leaf (KDT.node p i lt rt) used _
            (searchKD used tr tg tb rt (depth + 1))
            (searchKD used tr tg tb lt (depth + 1)) best best hv
            (fun b => searchRes_mono hsubr (ihr _ b))
            (fun b => searchRes_mono hsubl (ihl _ b))

/-- `Uint8ClampedArray` write of `Math.round(x)`: rounded then clamped to a
byte. -/
def jsByte (q : ℚ) : ℤ := min 255 (max 0 (round q))

/-- How one choice renders into the RGBA result buffer: an assigned sample
becomes its rounded byte color with alpha 255, a hole stays `(0,0,0,0)`
(transparent black). -/
def renderChoice : Option (EPix × ℕ) → ℤ × ℤ × ℤ × ℤ
  | some (p, _) => (jsByte (p.r * 255), jsByte (p.g * 255), jsByte (p.b * 255), 255)
  | none => (0, 0, 0, 0)

/-- One iteration of the per-target-pixel loop of `performKDTreeMatching`
(raster order, flat pixel index `t`, `targetIdx = t * 4`): query the nearest
unused sample; if one is found and is indeed unused, record it and mark its
index used, otherwise record a hole. -/
def kdLoopStep (tree : KDT) (targetData : ℕ → ℚ)
    (st : List ℕ × List (Option (EPix × ℕ))) (t : ℕ) :
    List ℕ × List (Option (EPix × ℕ)) :=
  match searchKD st.1 (targetData (t * 4) / 255) (targetData (t * 4 + 1) / 255)
      (targetData (t * 4 + 2) / 255) tree 0 none with
  | some ((p, i), _) =>
    if i ∈ st.1 then (st.1, st.2 ++ [none])
    else (i :: st.1, st.2 ++ [some (p, i)])
  | none => (st.1, st.2 ++ [none])

/-- `eatenPixels.map((pixel, index) => ({pixel, index}))`. -/
def pixelsWithIndices (eaten : List EPix) : List (EPix × ℕ) :=
  eaten.enum.map fun e => (e.2, e.1)

/-- `performKDTreeMatching`: build the k-d tree over the indexed samples and
process the target pixels in raster order; returns the final used-index set
and, per target pixel, the sample assigned to it (`none` = hole).  The result
RGBA buffer is the image of the choice list under `renderChoice`. -/
def performKDTreeMatching (eaten : List EPix) (targetData : ℕ → ℚ)
    (w h : ℕ) : List ℕ × List (Option (EPix × ℕ)) :=
  (List.range (h * w)).foldl
    (kdLoopStep (buildTree (pixelsWithIndices eaten) 0) targetData) ([], [])

/-- The RGBA bytes written by `performKDTreeMatching`. -/
def kdResult (eaten : List EPix) (targetData : ℕ → ℚ) (w h : ℕ) :
    List (ℤ × ℤ × ℤ × ℤ) :=
  (performKDTreeMatching eaten targetData w h).2.map renderChoice

/-- Sample indices assigned by a choice list. -/
def choiceIdxs (cs : List (Option (EPix × ℕ))) : List ℕ :=
  (cs.filterMap id).map Prod.snd

/-- Loop invariant of the k-d matching: assigned sample indices are distinct,
every assignment points back into the sample list, and assigned indices are
all marked used. -/
def KDInv (eaten : List EPix) (st : List ℕ × List (Option (EPix × ℕ))) : Prop :=
  (choiceIdxs st.2).Nodup ∧
    (∀ pi ∈ st.2.filterMap id, eaten[(pi : EPix × ℕ).2]? = some pi.1) ∧
    (∀ i ∈ choiceIdxs st.2, i ∈ st.1)

theorem choiceIdxs_append_none (cs : List (Option (EPix × ℕ))) :
    choiceIdxs (cs ++ [none]) = choiceIdxs cs := by
  unfold choiceIdxs
  rw [List.filterMap_append]
  simp

theorem choiceIdxs_append_some (cs : List (Option (EPix × ℕ))) (p : EPix) (i : ℕ) :
    choiceIdxs (cs ++ [some (p, i)]) = choiceIdxs cs ++ [i] := by
  unfold choiceIdxs
  rw [List.filterMap_append]
  simp

theorem mem_pixelsWithIndices {eaten : List EPix} {p : EPix} {i : ℕ}
    (h : (p, i) ∈ pixelsWithIndices eaten) : eaten[i]? = some p := by
  unfold pixelsWithIndices at h
  rw [List.mem_map] at h
  obtain ⟨⟨j, q⟩, hj, he⟩ := h
  cases he
  exact List.mk_mem_enum_iff_getElem?.mp hj

theorem kdLoopStep_inv (eaten : List EPix) (targetData : ℕ → ℚ)
    (st : List ℕ × List (Option (EPix × ℕ))) (t : ℕ)
    (hinv : KDInv eaten st) :
    KDInv eaten (kdLoopStep (buildTree (pixelsWithIndices eaten) 0) targetData st t) := by
  unfold kdLoopStep
  have hspec := searchKD_spec st.1 (targetData (t * 4) / 255)
    (targetData (t * 4 + 1) / 255) (targetData (t * 4 + 2) / 255)
    (buildTree (pixelsWithIndices eaten) 0) 0 none
  rcases hres : searchKD st.1 (targetData (t * 4) / 255) (targetData (t * 4 + 1) / 255)
      (targetData (t * 4 + 2) / 255) (buildTree (pixelsWithIndices eaten) 0) 0 none with
    _ | ⟨⟨p, i⟩, d⟩
  · dsimp only
    refine ⟨?_, ?_, ?_⟩
    · rw [choiceIdxs_append_none]
      exact hinv.1
    · intro pi hpi
      rw [List.filterMap_append] at hpi
      simp only [List.filterMap_cons, List.filterMap_nil, List.append_nil, id] at hpi
      exact hinv.2.1 pi hpi
    · intro i hi
      rw [choiceIdxs_append_none] at hi
      exact hinv.2.2 i hi
  · rw [hres] at hspec
    dsimp only
    rcases hspec with hspec | ⟨p1, i1, d1, heq, hmem, hunused⟩
    · exact absurd hspec (by simp)
    · simp only [Option.some.injEq, Prod.mk.injEq] at heq
      obtain ⟨⟨hp, hi⟩, _⟩ := heq
      subst hp
      subst hi
      have hget : eaten[i]? = some p :=
        mem_pixelsWithIndices
          ((buildTree_nodes_perm (pixelsWithIndices eaten).length
            (pixelsWithIndices eaten) (le_refl _) 0).mem_iff.mp hmem)
      rw [if_neg hunused]
      refine ⟨?_, ?_, ?_⟩
      · rw [choiceIdxs_append_some]
        rw [List.nodup_append]
        refine ⟨hinv.1, List.nodup_singleton i, ?_⟩
        intro a ha hb
        rw [List.mem_singleton] at hb
        subst hb
        exact hunused (hinv.2.2 a ha)
      · intro pi hpi
        rw [List.filterMap_append] at hpi
        rcases List.mem_append.mp hpi with hpi | hpi
        · exact hinv.2.1 pi hpi
        · simp only [List.filterMap_cons, List.filterMap_nil, id] at hpi
          rw [List.mem_singleton] at hpi
          subst hpi
          exact hget
      · intro j hj
        rw [choiceIdxs_append_some] at hj
        rcases List.mem_append.mp hj with hj | hj
        · exact List.mem_cons_of_mem _ (hinv.2.2 j hj)
        · rw [List.mem_singleton] at hj
          subst hj
          exact List.mem_cons_self _ _

theorem kd_foldl_inv (eaten : List EPix) (targetData : ℕ → ℚ)
    (l : List ℕ) (st : List ℕ × List (Option (EPix × ℕ)))
    (hinv : KDInv eaten st) :
    KDInv eaten (l.foldl
      (kdLoopStep (buildTree (pixelsWithIndices eaten) 0) targetData) st) := by
  induction l generalizing st with
  | nil => exact hinv
  | cons t l ih =>
    exact ih _ (kdLoopStep_inv eaten targetData st t hinv)

theorem performKDTreeMatching_inv (eaten : List EPix) (targetData : ℕ → ℚ)
    (w h : ℕ) : KDInv eaten (performKDTreeMatching eaten targetData w h) :=
  kd_foldl_inv eaten targetData _ ([], [])
    ⟨List.nodup_nil, by simp, by simp [choiceIdxs]⟩

theorem kdLoopStep_len (tree : KDT) (targetData : ℕ → ℚ)
    (st : List ℕ × List (Option (EPix × ℕ))) (t : ℕ) :
    (kdLoopStep tree targetData st t).2.length = st.2.length + 1 := by
  unfold kdLoopStep
  rcases searchKD st.1 (targetData (t * 4) / 255) (targetData (t * 4 + 1) / 255)
      (targetData (t * 4 + 2) / 255) tree 0 none with _ | ⟨⟨p, i⟩, d⟩
  · simp
  · dsimp only
    by_cases hu : i ∈ st.1
    · rw [if_pos hu]
      simp
    · rw [if_neg hu]
      simp

theorem performKDTreeMatching_len (eaten : List EPix) (targetData : ℕ → ℚ)
    (w h : ℕ) : (performKDTreeMatching eaten targetData w h).2.length = h * w := by
  unfold performKDTreeMatching
  have hgen : ∀ (l : List ℕ) (st : List ℕ × List (Option (EPix × ℕ))),
      (l.foldl (kdLoopStep (buildTree (pixelsWithIndices eaten) 0) targetData) st).2.length =
        st.2.length + l.length := by
    intro l
    induction l with
    | nil => intro st; simp
    | cons t l ih =>
      intro st
      rw [List.foldl_cons, ih, kdLoopStep_len]
      simp only [List.length_cons]
      omega
  rw [hgen]
  simp

/-- A `Nodup` index list forces positional uniqueness of assignments. -/
theorem choice_get_unique (cs : List (Option (EPix × ℕ)))
    (hnd : (choiceIdxs cs).Nodup) :
    ∀ (t1 t2 : ℕ) (p1 p2 : EPix) (i : ℕ), cs[t1]? = some (some (p1, i)) →
      cs[t2]? = some (some (p2, i)) → t1 = t2 := by
  induction cs with
  | nil =>
    intro t1 t2 p1 p2 i h1 _
    simp at h1
  | cons c cs ih =>
    have hmemidx : ∀ (t : ℕ) (p : EPix) (j : ℕ),
        cs[t]? = some (some (p, j)) → j ∈ choiceIdxs cs := by
      intro t p j ht
      have hm : some (p, j) ∈ cs := List.getElem?_mem ht
      unfold choiceIdxs
      rw [List.mem_map]
      exact ⟨(p, j), List.mem_filterMap.mpr ⟨some (p, j), hm, rfl⟩, rfl⟩
    intro t1 t2 p1 p2 i h1 h2
    match t1, t2 with
    | 0, 0 => rfl
    | 0, t2 + 1 =>
      rw [List.getElem?_cons_zero] at h1
      rw [List.getElem?_cons_succ] at h2
      injection h1 with h1
      subst h1
      have hcons : choiceIdxs (some (p1, i) :: cs) = i :: choiceIdxs cs := by
        unfold choiceIdxs
        simp
      rw [hcons] at hnd
      exact absurd (hmemidx t2 p2 i h2) (List.nodup_cons.mp hnd).1
    | t1 + 1, 0 =>
      rw [List.getElem?_cons_zero] at h2
      rw [List.getElem?_cons_succ] at h1
      injection h2 with h2
      subst h2
      have hcons : choiceIdxs (some (p2, i) :: cs) = i :: choiceIdxs cs := by
        unfold choiceIdxs
        simp
      rw [hcons] at hnd
      exact absurd (hmemidx t1 p1 i h1) (List.nodup_cons.mp hnd).1
    | t1 + 1, t2 + 1 =>
      rw [List.getElem?_cons_succ] at h1 h2
      have htail : (choiceIdxs cs).Nodup := by
        rcases c with _ | q
        · have hcons : choiceIdxs (none :: cs) = choiceIdxs cs := by
            unfold choiceIdxs
            simp
          rwa [hcons] at hnd
        · have hcons : choiceIdxs (some q :: cs) = q.2 :: choiceIdxs cs := by
            unfold choiceIdxs
            simp
          rw [hcons] at hnd
          exact (List.nodup_cons.mp hnd).2
      rw [ih htail t1 t2 p1 p2 i h1 h2]

end Lennings

namespace Lennings

/-! ## Greedy luminance-sort mosaic (C1, strategy 2)

`reconstructMosaic` from src/unnamed/part_009 (lines 89-156): target pixels
and harvested tiles are both sorted by luminance and paired by rank; each tile
is used at most once; unassigned target pixels keep the initial opaque black
`(0, 0, 0, 255)`. -/

/-- `luminance(r, g, b)` (part_009 lines 10-12). -/
def luminance (r g b : ℚ) : ℚ :=
  (299/1000) * r + (587/1000) * g + (114/1000) * b

/-- A target pixel record pushed by `reconstructMosaic`. -/
structure MTarget where
  x : ℕ
  y : ℕ
  r : ℚ
  g : ℚ
  b : ℚ
  lum : ℚ
  idx : ℕ
deriving DecidableEq, Repr

/-- A tile record derived from one harvested sample. -/
structure MTile where
  r : ℚ
  g : ℚ
  b : ℚ
  lum : ℚ
  originalIdx : ℕ
deriving DecidableEq, Repr

/-- The target list built in raster order (`y` outer, `x` inner; the flat
pixel index `t` decomposes as `x = t % w`, `y = t / w`, and the stored
`idx = y * w + x`). -/
def mosaicTargets (targetData : ℕ → ℚ) (w h : ℕ) : List MTarget :=
  (List.range (h * w)).map fun t =>
    ⟨t % w, t / w, targetData (t * 4) / 255, targetData (t * 4 + 1) / 255,
      targetData (t * 4 + 2) / 255,
      luminance (targetData (t * 4) / 255) (targetData (t * 4 + 1) / 255)
        (targetData (t * 4 + 2) / 255),
      (t / w) * w + t % w⟩

/-- The tile list `eatenPixels.map((p, i) => {r, g, b, lum, originalIdx})`. -/
def mosaicTiles (eaten : List EPix) : List MTile :=
  eaten.enum.map fun e =>
    ⟨e.2.r, e.2.g, e.2.b, luminance e.2.r e.2.g e.2.b, e.1⟩

/-- Rank pairing of the luminance-sorted targets with the luminance-sorted
tiles: `zip` pairs index `i` of both lists for
`i < min(targets.length, tiles.length)`, exactly the assignment loop. -/
def mosaicAssignments (eaten : List EPix) (targetData : ℕ → ℚ)
    (w h : ℕ) : List (MTarget × MTile) :=
  ((mosaicTargets targetData w h).insertionSort fun a b => a.lum ≤ b.lum).zip
    ((mosaicTiles eaten).insertionSort fun a b => a.lum ≤ b.lum)

/-- The RGBA bytes of one assigned tile. -/
def tileBytes (tile : MTile) : ℤ × ℤ × ℤ × ℤ :=
  (jsByte (tile.r * 255), jsByte (tile.g * 255), jsByte (tile.b * 255), 255)

/-- The result buffer of `reconstructMosaic`: initially opaque black
`(0, 0, 0, 255)` everywhere, then each assignment writes its tile's bytes at
`target.idx`. -/
def reconstructMosaic (eaten : List EPix) (targetData : ℕ → ℚ)
    (w h : ℕ) : ℕ → ℤ × ℤ × ℤ × ℤ :=
  (mosaicAssignments eaten targetData w h).foldl
    (fun buf a => Function.update buf a.1.idx (tileBytes a.2))
    (fun _ => (0, 0, 0, 255))

theorem map_fst_zip_sublist {α β : Type} :
    ∀ (A : List α) (B : List β), List.Sublist ((A.zip B).map Prod.fst) A := by
  intro A
  induction A with
  | nil => intro B; simp
  | cons a A ih =>
    intro B
    rcases B with _ | ⟨b, B⟩
    · simp
    · rw [List.zip_cons_cons, List.map_cons]
      exact List.Sublist.cons₂ a (ih B)

theorem map_snd_zip_sublist {α β : Type} :
    ∀ (A : List α) (B : List β), List.Sublist ((A.zip B).map Prod.snd) B := by
  intro A
  induction A with
  | nil => intro B; simp
  | cons a A ih =>
    intro B
    rcases B with _ | ⟨b, B⟩
    · simp
    · rw [List.zip_cons_cons, List.map_cons]
      exact List.Sublist.cons₂ b (ih B)

theorem mosaicTargets_map_idx (targetData : ℕ → ℚ) (w h : ℕ) :
    (mosaicTargets targetData w h).map MTarget.idx = List.range (h * w) := by
  unfold mosaicTargets
  rw [List.map_map]
  have hid : ∀ t : ℕ, t / w * w + t % w = t := by
    intro t
    rw [Nat.mul_comm (t / w) w]
    exact Nat.div_add_mod t w
  calc (List.range (h * w)).map _ = (List.range (h * w)).map id :=
        List.map_congr_left fun t _ => hid t
    _ = List.range (h * w) := List.map_id _

theorem mosaicTiles_map_originalIdx (eaten : List EPix) :
    (mosaicTiles eaten).map MTile.originalIdx = List.range eaten.length := by
  unfold mosaicTiles
  rw [List.map_map]
  have : (MTile.originalIdx ∘ fun e : ℕ × EPix =>
      (⟨e.2.r, e.2.g, e.2.b, luminance e.2.r e.2.g e.2.b, e.1⟩ : MTile)) =
      Prod.fst := rfl
  rw [this]
  exact List.enum_map_fst eaten

theorem nodup_map_of_perm {α β : Type} (f : α → β) {l1 l2 : List α}
    (hp : List.Perm l1 l2) (h : (l2.map f).Nodup) : (l1.map f).Nodup :=
  ((hp.map f).nodup_iff).mpr h

/-- Distinctness of assigned target indices. -/
theorem mosaicAssignments_target_nodup (eaten : List EPix)
    (targetData : ℕ → ℚ) (w h : ℕ) :
    ((mosaicAssignments eaten targetData w h).map fun a => a.1.idx).Nodup := by
  have hperm : List.Perm
      ((mosaicTargets targetData w h).insertionSort fun a b => a.lum ≤ b.lum)
      (mosaicTargets targetData w h) := List.perm_insertionSort _ _
  have hnd : (((mosaicTargets targetData w h).insertionSort
      fun a b => a.lum ≤ b.lum).map MTarget.idx).Nodup := by
    refine nodup_map_of_perm MTarget.idx hperm ?_
    rw [mosaicTargets_map_idx]
    exact List.nodup_range _
  have hsub : List.Sublist
      ((mosaicAssignments eaten targetData w h).map Prod.fst)
      ((mosaicTargets targetData w h).insertionSort fun a b => a.lum ≤ b.lum) :=
    map_fst_zip_sublist _ _
  have hfinal : (((mosaicAssignments eaten targetData w h).map Prod.fst).map
      MTarget.idx).Nodup := (hsub.map MTarget.idx).nodup hnd
  simpa [List.map_map, Function.comp] using hfinal

/-- Distinctness of assigned tile (sample) indices: no tile is used twice. -/
theorem mosaicAssignments_tile_nodup (eaten : List EPix)
    (targetData : ℕ → ℚ) (w h : ℕ) :
    ((mosaicAssignments eaten targetData w h).map fun a => a.2.originalIdx).Nodup := by
  have hperm : List.Perm
      ((mosaicTiles eaten).insertionSort fun a b => a.lum ≤ b.lum)
      (mosaicTiles eaten) := List.perm_insertionSort _ _
  have hnd : (((mosaicTiles eaten).insertionSort
      fun a b => a.lum ≤ b.lum).map MTile.originalIdx).Nodup := by
    refine nodup_map_of_perm MTile.originalIdx hperm ?_
    rw [mosaicTiles_map_originalIdx]
    exact List.nodup_range _
  have hsub : List.Sublist
      ((mosaicAssignments eaten targetData w h).map Prod.snd)
      ((mosaicTiles eaten).insertionSort fun a b => a.lum ≤ b.lum) :=
    map_snd_zip_sublist _ _
  have hfinal : (((mosaicAssignments eaten targetData w h).map Prod.snd).map
      MTile.originalIdx).Nodup := (hsub.map MTile.originalIdx).nodup hnd
  simpa [List.map_map, Function.comp] using hfinal

/-- Every assigned tile is one of the harvested samples (by its stored
index), with exactly the sample's color. -/
theorem mosaicAssignments_tile_mem (eaten : List EPix) (targetData : ℕ → ℚ)
    (w h : ℕ) (a : MTarget × MTile)
    (ha : a ∈ mosaicAssignments eaten targetData w h) :
    ∃ p : EPix, eaten[a.2.originalIdx]? = some p ∧
      a.2.r = p.r ∧ a.2.g = p.g ∧ a.2.b = p.b := by
  have ha2 : (a.1, a.2) ∈ mosaicAssignments eaten targetData w h := ha
  have hmem : a.2 ∈ (mosaicTiles eaten).insertionSort fun a b => a.lum ≤ b.lum :=
    (List.of_mem_zip ha2).2
  have hmem2 : a.2 ∈ mosaicTiles eaten :=
    (List.perm_insertionSort _ _).mem_iff.mp hmem
  unfold mosaicTiles at hmem2
  rw [List.mem_map] at hmem2
  obtain ⟨⟨j, q⟩, hj, he⟩ := hmem2
  refine ⟨q, ?_, ?_, ?_, ?_⟩
  · have : a.2.originalIdx = j := by rw [← he]
    rw [this]
    exact List.mk_mem_enum_iff_getElem?.mp hj
  · rw [← he]
  · rw [← he]
  · rw [← he]

theorem mosaicWrites_not_mem (ws : List (MTarget × MTile))
    (buf : ℕ → ℤ × ℤ × ℤ × ℤ) (k : ℕ) (hk : ∀ a ∈ ws, a.1.idx ≠ k) :
    ws.foldl (fun (b : ℕ → ℤ × ℤ × ℤ × ℤ) a =>
      Function.update b a.1.idx (tileBytes a.2)) buf k = buf k := by
  induction ws generalizing buf with
  | nil => rfl
  | cons a ws ih =>
    rw [List.foldl_cons, ih _ fun x hx => hk x (List.mem_cons_of_mem a hx)]
    exact Function.update_noteq (fun hne => hk a (List.mem_cons_self a ws) hne.symm) _ buf

theorem mosaicWrites_mem (ws : List (MTarget × MTile))
    (buf : ℕ → ℤ × ℤ × ℤ × ℤ) (a : MTarget × MTile) (ha : a ∈ ws)
    (hnd : (ws.map fun x => x.1.idx).Nodup) :
    ws.foldl (fun (b : ℕ → ℤ × ℤ × ℤ × ℤ) x =>
      Function.update b x.1.idx (tileBytes x.2)) buf a.1.idx =
      tileBytes a.2 := by
  induction ws generalizing buf with
  | nil => cases ha
  | cons c ws ih =>
    rw [List.map_cons, List.nodup_cons] at hnd
    rcases List.mem_cons.mp ha with rfl | hmem
    · rw [List.foldl_cons]
      rw [mosaicWrites_not_mem ws _ a.1.idx
        (fun x hx hne => hnd.1 (hne ▸ List.mem_map_of_mem (fun y => y.1.idx) hx))]
      exact Function.update_same _ _ _
    · rw [List.foldl_cons]
      exact ih _ hmem hnd.2

/-- Mosaic strategy: assigned pixels carry their tile's bytes, unassigned
pixels stay opaque black. -/
theorem reconstructMosaic_spec (eaten : List EPix) (targetData : ℕ → ℚ)
    (w h : ℕ) :
    (∀ a ∈ mosaicAssignments eaten targetData w h,
      reconstructMosaic eaten targetData w h a.1.idx = tileBytes a.2) ∧
    (∀ t : ℕ, (∀ a ∈ mosaicAssignments eaten targetData w h, a.1.idx ≠ t) →
      reconstructMosaic eaten targetData w h t = (0, 0, 0, 255)) := by
  constructor
  · intro a ha
    exact mosaicWrites_mem _ _ a ha (mosaicAssignments_target_nodup eaten targetData w h)
  · intro t ht
    exact mosaicWrites_not_mem _ _ t ht

end Lennings


namespace Lennings

/-! ## Quantized-histogram matching (C1, strategy 3)

`performHistogramMatching` from src/unnamed/part_009 (lines 372-558): samples
and target pixels are bucketed into a 64-levels-per-channel quantization grid;
each target bucket is matched to the eaten bucket with the closest average
color; within the matched bucket each target pixel takes the closest not-yet
used sample.  When the matched bucket has no unused sample left (or no bucket
was matched) the code falls back to writing the target image's own color with
alpha 255 — not a hole.  JS `Map`s are modelled as association lists in key
insertion order; the perceptual distance uses a real square root, so the
selection folds live in `ℝ` with the `Infinity` sentinel modelled by an
absent accumulator. -/

/-- `quantizeColor` (part_009 lines 381-386): 6-bit quantization per channel,
bin index `qr * 64 * 64 + qg * 64 + qb`. -/
def quantizeColor (r g b : ℚ) : ℤ :=
  ⌊r * 63⌋ * (64 * 64) + ⌊g * 63⌋ * 64 + ⌊b * 63⌋

/-- `perceptualDistance` (part_009 lines 401-412): luminance-weighted distance
`0.7 * |lum1 - lum2| + 0.3 * sqrt(dr² + dg² + db²)`. -/
noncomputable def perceptualDistance (r1 g1 b1 r2 g2 b2 : ℚ) : ℝ :=
  (7/10) * |((luminance r1 g1 b1 : ℚ) : ℝ) - ((luminance r2 g2 b2 : ℚ) : ℝ)| +
    (3/10) * Real.sqrt (((r1 - r2 : ℚ) : ℝ) * ((r1 - r2 : ℚ) : ℝ) +
      ((g1 - g2 : ℚ) : ℝ) * ((g1 - g2 : ℚ) : ℝ) +
      ((b1 - b2 : ℚ) : ℝ) * ((b1 - b2 : ℚ) : ℝ))

/-- `Map.get(bin).push(i)` / `Map.set(bin, [i])` on an association list in key
insertion order. -/
def mapPush (h : List (ℤ × List ℕ)) (bin : ℤ) (i : ℕ) : List (ℤ × List ℕ) :=
  match h with
  | [] => [(bin, [i])]
  | (b, l) :: rest =>
    if b = bin then (b, l ++ [i]) :: rest else (b, l) :: mapPush rest bin i

/-- The eaten-pixel histogram: bin of each sample mapped to the list of sample
indices in that bin. -/
def eatenHistogram (eaten : List EPix) : List (ℤ × List ℕ) :=
  eaten.enum.foldl
    (fun h e => mapPush h (quantizeColor e.2.r e.2.g e.2.b) e.1) []

/-- A target pixel record of the histogram worker
(`{idx, r, g, b, tx, ty, bin}`, with `idx` the byte index `(ty*w + tx) * 4`). -/
structure TPix where
  idx : ℕ
  r : ℚ
  g : ℚ
  b : ℚ
  tx : ℕ
  ty : ℕ
  bin : ℤ
deriving DecidableEq, Repr

/-- The `targetPixels` list in raster order. -/
def targetScan (targetData : ℕ → ℚ) (w h : ℕ) : List TPix :=
  (List.range (h * w)).map fun t =>
    ⟨t * 4, targetData (t * 4) / 255, targetData (t * 4 + 1) / 255,
      targetData (t * 4 + 2) / 255, t % w, t / w,
      quantizeColor (targetData (t * 4) / 255) (targetData (t * 4 + 1) / 255)
        (targetData (t * 4 + 2) / 255)⟩

/-- `Map.get(bin).push(p)` for the target histogram. -/
def mapPushT (h : List (ℤ × List TPix)) (bin : ℤ) (p : TPix) :
    List (ℤ × List TPix) :=
  match h with
  | [] => [(bin, [p])]
  | (b, l) :: rest =>
    if b = bin then (b, l ++ [p]) :: rest else (b, l) :: mapPushT rest bin p

/-- The target-pixel histogram. -/
def targetHistogram (targetData : ℕ → ℚ) (w h : ℕ) : List (ℤ × List TPix) :=
  (targetScan targetData w h).foldl (fun ht p => mapPushT ht p.bin p) []

/-- Average color of a target bucket. -/
def targetBinAvg (l : List TPix) : ℚ × ℚ × ℚ :=
  ((l.map TPix.r).sum / l.length, (l.map TPix.g).sum / l.length,
    (l.map TPix.b).sum / l.length)

/-- Average color of an eaten bucket (indices into the sample list). -/
def eatenBinAvg (eaten : List EPix) (idxs : List ℕ) : ℚ × ℚ × ℚ :=
  ((idxs.map fun i => (eaten.getD i ⟨0, 0, 0, 0, 0⟩).r).sum / idxs.length,
    (idxs.map fun i => (eaten.getD i ⟨0, 0, 0, 0, 0⟩).g).sum / idxs.length,
    (idxs.map fun i => (eaten.getD i ⟨0, 0, 0, 0, 0⟩).b).sum / idxs.length)

open Classical in
/-- One eaten-bucket consideration while matching a target bucket
(part_009 lines 478-499): empty buckets are skipped, the rest compete by the
perceptual distance of their average color (`Infinity` sentinel = `none`). -/
noncomputable def eatenBinStep (eaten : List EPix) (ar ag ab : ℚ)
    (best : Option (ℤ × ℝ)) (e : ℤ × List ℕ) : Option (ℤ × ℝ) :=
  if e.2.length = 0 then best
  else
    let avg := eatenBinAvg eaten e.2
    if (match best with
        | none => True
        | some (_, bd) => perceptualDistance ar ag ab avg.1 avg.2.1 avg.2.2 < bd) then
      some (e.1, perceptualDistance ar ag ab avg.1 avg.2.1 avg.2.2)
    else best

/-- The best-matching eaten bucket for a target bucket average color
(part_009 lines 474-499). -/
noncomputable def bestEatenBin (eaten : List EPix) (hist : List (ℤ × List ℕ))
    (ar ag ab : ℚ) : Option (ℤ × ℝ) :=
  hist.foldl (eatenBinStep eaten ar ag ab) none

/-- `binMatches`: target bin mapped to its best eaten bin (insertion order of
the target histogram). -/
noncomputable def binMatches (eaten : List EPix) (targetData : ℕ → ℚ)
    (w h : ℕ) : List (ℤ × ℤ) :=
  (targetHistogram targetData w h).foldl
    (fun acc e =>
      if e.2.length = 0 then acc
      else
        let avg := targetBinAvg e.2
        match bestEatenBin eaten (eatenHistogram eaten) avg.1 avg.2.1 avg.2.2 with
        | some (bin, _) => acc ++ [(e.1, bin)]
        | none => acc)
    []

open Classical in
/-- One candidate consideration of the per-pixel selection loop
(part_009 lines 519-530): used candidates are skipped, the rest compete by
perceptual distance against the current best (`Infinity` sentinel = `none`). -/
noncomputable def candStep (eaten : List EPix) (used : List ℕ) (t : TPix)
    (best : Option (ℕ × ℝ)) (pixIdx : ℕ) : Option (ℕ × ℝ) :=
  if pixIdx ∈ used then best
  else
    let pixel := eaten.getD pixIdx ⟨0, 0, 0, 0, 0⟩
    if (match best with
        | none => True
        | some (_, bd) =>
          perceptualDistance t.r t.g t.b pixel.r pixel.g pixel.b < bd) then
      some (pixIdx, perceptualDistance t.r t.g t.b pixel.r pixel.g pixel.b)
    else best

/-- The best unused sample of a matched bucket for one target pixel
(part_009 lines 514-530). -/
noncomputable def bestCandidate (eaten : List EPix) (used : List ℕ) (t : TPix)
    (candidateIndices : List ℕ) : Option (ℕ × ℝ) :=
  candidateIndices.foldl (candStep eaten used t) none

/-- Write one RGBA quad into the flat byte buffer at byte index `idx`. -/
def write4 (buf : ℕ → ℤ) (idx : ℕ) (v : ℤ × ℤ × ℤ × ℤ) : ℕ → ℤ :=
  Function.update (Function.update (Function.update
    (Function.update buf idx v.1) (idx + 1) v.2.1) (idx + 2) v.2.2.1)
    (idx + 3) v.2.2.2

/-- State of the assignment loop: result buffer, `usedPixels` set, and the
per-target-pixel choice trace (`some i` = sample `i` assigned, `none` =
fallback to the target's own color). -/
def HistSt : Type := (ℕ → ℤ) × List ℕ × List (Option ℕ)

/-- One iteration of the assignment loop (part_009 lines 507-552): look up the
matched bucket of the pixel's bin; assign the best unused candidate if any,
marking it used; otherwise (no unused candidate, or no bucket match) write the
target image's own color with alpha 255. -/
noncomputable def histAssignStep (eaten : List EPix) (targetData : ℕ → ℚ)
    (w h : ℕ) (st : HistSt) (t : TPix) : HistSt :=
  match (binMatches eaten targetData w h).lookup t.bin with
  | some matchedBin =>
    match (eatenHistogram eaten).lookup matchedBin with
    | some candidateIndices =>
      match bestCandidate eaten st.2.1 t candidateIndices with
      | some (bestIndex, _) =>
        (write4 st.1 t.idx
            (jsByte ((eaten.getD bestIndex ⟨0, 0, 0, 0, 0⟩).r * 255),
              jsByte ((eaten.getD bestIndex ⟨0, 0, 0, 0, 0⟩).g * 255),
              jsByte ((eaten.getD bestIndex ⟨0, 0, 0, 0, 0⟩).b * 255), 255),
          st.2.1 ++ [bestIndex], st.2.2 ++ [some bestIndex])
      | none =>
        (write4 st.1 t.idx
            (jsByte (targetData t.idx), jsByte (targetData (t.idx + 1)),
              jsByte (targetData (t.idx + 2)), 255),
          st.2.1, st.2.2 ++ [none])
    | none =>
      (write4 st.1 t.idx
          (jsByte (targetData t.idx), jsByte (targetData (t.idx + 1)),
            jsByte (targetData (t.idx + 2)), 255),
        st.2.1, st.2.2 ++ [none])
  | none =>
    (write4 st.1 t.idx
        (jsByte (targetData t.idx), jsByte (targetData (t.idx + 1)),
          jsByte (targetData (t.idx + 2)), 255),
      st.2.1, st.2.2 ++ [none])

/-- `performHistogramMatching`: histogram worker main routine.  The result
buffer starts as all-zero bytes (`new Uint8ClampedArray`). -/
noncomputable def performHistogramMatching (eaten : List EPix)
    (targetData : ℕ → ℚ) (w h : ℕ) : HistSt :=
  (targetScan targetData w h).foldl (histAssignStep eaten targetData w h)
    ((fun _ => 0), [], [])

/-- Result classification for the candidate fold: unchanged best, or an
unused index drawn from the scanned candidates. -/
def CandRes (cs used : List ℕ) (res best : Option (ℕ × ℝ)) : Prop :=
  res = best ∨ ∃ i d, res = some (i, d) ∧ i ∉ used ∧ i ∈ cs

theorem candRes_mono {cs cs' used : List ℕ} {res best : Option (ℕ × ℝ)}
    (hsub : ∀ i, i ∈ cs → i ∈ cs') (h : CandRes cs used res best) :
    CandRes cs' used res best := by
  rcases h with h | ⟨i, d, h1, h2, h3⟩
  · exact Or.inl h
  · exact Or.inr ⟨i, d, h1, h2, hsub i h3⟩

theorem candRes_trans {cs used : List ℕ} {a b c : Option (ℕ × ℝ)}
    (h1 : CandRes cs used b a) (h2 : CandRes cs used c b) :
    CandRes cs used c a := by
  rcases h2 with h2 | ⟨i, d, hc, hu, hm⟩
  · rw [h2]
    exact h1
  · exact Or.inr ⟨i, d, hc, hu, hm⟩

theorem candStep_spec (eaten : List EPix) (used : List ℕ) (t : TPix)
    (best : Option (ℕ × ℝ)) (pixIdx : ℕ) :
    CandRes [pixIdx] used (candStep eaten used t best pixIdx) best := by
  unfold candStep
  split
  · exact Or.inl rfl
  · next hu =>
    dsimp only
    split
    · exact Or.inr ⟨pixIdx, _, rfl, hu, List.mem_singleton_self _⟩
    · exact Or.inl rfl

theorem bestCandidate_fold_spec (eaten : List EPix) (used : List ℕ) (t : TPix) :
    ∀ (cs : List ℕ) (best : Option (ℕ × ℝ)),
      CandRes cs used (cs.foldl (candStep eaten used t) best) best := by
  intro cs
  induction cs with
  | nil => intro best; exact Or.inl rfl
  | cons c cs ih =>
    intro best
    rw [List.foldl_cons]
    refine candRes_trans
      (candRes_mono (fun i hi => ?_) (candStep_spec eaten used t best c))
      (candRes_mono (fun i hi => List.mem_cons_of_mem c hi) (ih _))
    rw [List.mem_singleton] at hi
    subst hi
    exact List.mem_cons_self _ _

theorem bestCandidate_spec (eaten : List EPix) (used : List ℕ) (t : TPix)
    (cands : List ℕ) :
    bestCandidate eaten used t cands = none ∨
      ∃ i d, bestCandidate eaten used t cands = some (i, d) ∧ i ∉ used ∧
        i ∈ cands := by
  rcases bestCandidate_fold_spec eaten used t cands none with h | ⟨i, d, h1, h2, h3⟩
  · exact Or.inl h
  · exact Or.inr ⟨i, d, h1, h2, h3⟩

/-- Indices of the samples actually assigned in a choice trace. -/
def histChoiceIdxs (cs : List (Option ℕ)) : List ℕ := cs.filterMap id

/-- Loop invariant of the histogram assignment: assigned sample indices are
distinct and all recorded in the used set. -/
def HistInv (st : HistSt) : Prop :=
  (histChoiceIdxs st.2.2).Nodup ∧ ∀ i ∈ histChoiceIdxs st.2.2, i ∈ st.2.1

theorem histChoiceIdxs_append_none (cs : List (Option ℕ)) :
    histChoiceIdxs (cs ++ [none]) = histChoiceIdxs cs := by
  unfold histChoiceIdxs
  rw [List.filterMap_append]
  simp

theorem histChoiceIdxs_append_some (cs : List (Option ℕ)) (i : ℕ) :
    histChoiceIdxs (cs ++ [some i]) = histChoiceIdxs cs ++ [i] := by
  unfold histChoiceIdxs
  rw [List.filterMap_append]
  simp

theorem histAssignStep_inv (eaten : List EPix) (targetData : ℕ → ℚ)
    (w h : ℕ) (st : HistSt) (t : TPix) (hinv : HistInv st) :
    HistInv (histAssignStep eaten targetData w h st t) := by
  have hfallback : ∀ buf,
      HistInv (buf, st.2.1, st.2.2 ++ [none]) := by
    intro buf
    refine ⟨?_, ?_⟩
    · rw [histChoiceIdxs_append_none]
      exact hinv.1
    · intro i hi
      rw [histChoiceIdxs_append_none] at hi
      exact hinv.2 i hi
  unfold histAssignStep
  rcases (binMatches eaten targetData w h).lookup t.bin with _ | matchedBin
  · exact hfallback _
  · dsimp only
    rcases (eatenHistogram eaten).lookup matchedBin with _ | candidateIndices
    · exact hfallback _
    · dsimp only
      rcases hbc : bestCandidate eaten st.2.1 t candidateIndices with _ | ⟨bestIndex, d⟩
      · exact hfallback _
      · dsimp only
        rcases bestCandidate_spec eaten st.2.1 t candidateIndices with hn | ⟨i, d1, h1, h2, h3⟩
        · rw [hn] at hbc
          cases hbc
        · rw [h1] at hbc
          injection hbc with hbc
          obtain ⟨rfl, rfl⟩ : i = bestIndex ∧ d1 = d := by
            constructor
            · exact congrArg Prod.fst hbc
            · exact congrArg Prod.snd hbc
          refine ⟨?_, ?_⟩
          · rw [histChoiceIdxs_append_some, List.nodup_append]
            refine ⟨hinv.1, List.nodup_singleton _, ?_⟩
            intro a ha hb
            rw [List.mem_singleton] at hb
            subst hb
            exact h2 (hinv.2 a ha)
          · intro j hj
            rw [histChoiceIdxs_append_some] at hj
            rcases List.mem_append.mp hj with hj | hj
            · exact List.mem_append_left _ (hinv.2 j hj)
            · rw [List.mem_singleton] at hj
              subst hj
              exact List.mem_append_right _ (List.mem_singleton_self _)

/-- Histogram strategy, no-reuse: across the whole assignment loop no
harvested sample is assigned to more than one output pixel. -/
theorem performHistogramMatching_nodup (eaten : List EPix)
    (targetData : ℕ → ℚ) (w h : ℕ) :
    (histChoiceIdxs (performHistogramMatching eaten targetData w h).2.2).Nodup := by
  suffices hall : ∀ (ts : List TPix) (st : HistSt), HistInv st →
      HistInv (ts.foldl (histAssignStep eaten targetData w h) st) by
    exact (hall (targetScan targetData w h) ((fun _ => 0), [], [])
      ⟨List.nodup_nil, by simp [histChoiceIdxs]⟩).1
  intro ts
  induction ts with
  | nil => intro st hst; exact hst
  | cons t ts ih =>
    intro st hst
    exact ih _ (histAssignStep_inv eaten targetData w h st t hst)

end Lennings

namespace Lennings

/-! ## C1 counterexample input: two harvested samples, 2x1 target

Samples: pure-red levels `0.3` and `1.0` (bins `18*4096 = 73728` and
`63*4096 = 258048`); target: both pixels byte color `(102, 0, 0, 255)`
(red level `0.4`, bin `25*4096 = 102400`). -/

def histCexEaten : List EPix := [⟨0, 0, 3/10, 0, 0⟩, ⟨1, 0, 1, 0, 0⟩]

def histCexTarget : ℕ → ℚ := fun i =>
  if i % 4 = 3 then 255 else if i % 4 = 0 then 102 else 0

theorem histCex_targetScan : targetScan histCexTarget 2 1 =
    [⟨0, 2/5, 0, 0, 0, 0, 102400⟩, ⟨4, 2/5, 0, 0, 1, 0, 102400⟩] := by
  unfold targetScan quantizeColor histCexTarget
  norm_num [List.range_succ]

theorem histCex_eatenHistogram :
    eatenHistogram histCexEaten = [(73728, [0]), (258048, [1])] := by
  unfold eatenHistogram histCexEaten quantizeColor
  norm_num [List.enum, List.enumFrom, mapPush]

end Lennings

namespace Lennings

theorem histCex_targetHistogram : targetHistogram histCexTarget 2 1 =
    [(102400, [⟨0, 2/5, 0, 0, 0, 0, 102400⟩, ⟨4, 2/5, 0, 0, 1, 0, 102400⟩])] := by
  unfold targetHistogram
  rw [histCex_targetScan]
  norm_num [mapPushT]

theorem histCex_pd0 : perceptualDistance (2/5) 0 0 (3/10) 0 0 = 5093/100000 := by
  unfold perceptualDistance luminance
  have hsq : (((2/5 - 3/10 : ℚ) : ℝ) * ((2/5 - 3/10 : ℚ) : ℝ) +
      ((0 - 0 : ℚ) : ℝ) * ((0 - 0 : ℚ) : ℝ) +
      ((0 - 0 : ℚ) : ℝ) * ((0 - 0 : ℚ) : ℝ)) = (1/10 : ℝ)^2 := by
    push_cast
    norm_num
  rw [hsq, Real.sqrt_sq (by norm_num)]
  push_cast
  rw [abs_of_nonneg (by norm_num)]
  norm_num

theorem histCex_pd1 : perceptualDistance (2/5) 0 0 1 0 0 = 30558/100000 := by
  unfold perceptualDistance luminance
  have hsq : (((2/5 - 1 : ℚ) : ℝ) * ((2/5 - 1 : ℚ) : ℝ) +
      ((0 - 0 : ℚ) : ℝ) * ((0 - 0 : ℚ) : ℝ) +
      ((0 - 0 : ℚ) : ℝ) * ((0 - 0 : ℚ) : ℝ)) = (3/5 : ℝ)^2 := by
    push_cast
    norm_num
  rw [hsq, Real.sqrt_sq (by norm_num)]
  push_cast
  rw [abs_of_nonpos (by norm_num)]
  norm_num

end Lennings

namespace Lennings

theorem histCex_bestEatenBin :
    bestEatenBin histCexEaten (eatenHistogram histCexEaten) (2/5) 0 0 =
      some (73728, perceptualDistance (2/5) 0 0 (3/10) 0 0) := by
  have havg0 : eatenBinAvg histCexEaten [0] = (3/10, 0, 0) := by
    unfold eatenBinAvg histCexEaten
    norm_num
  have havg1 : eatenBinAvg histCexEaten [1] = (1, 0, 0) := by
    unfold eatenBinAvg histCexEaten
    norm_num
  have hstep1 : eatenBinStep histCexEaten (2/5) 0 0 none (73728, [0]) =
      some (73728, perceptualDistance (2/5) 0 0 (3/10) 0 0) := by
    unfold eatenBinStep
    rw [if_neg (by norm_num)]
    dsimp only
    rw [havg0]
    dsimp only
    rw [if_pos trivial]
  have hstep2 : eatenBinStep histCexEaten (2/5) 0 0
      (some (73728, perceptualDistance (2/5) 0 0 (3/10) 0 0)) (258048, [1]) =
      some (73728, perceptualDistance (2/5) 0 0 (3/10) 0 0) := by
    unfold eatenBinStep
    rw [if_neg (by norm_num)]
    dsimp only
    rw [havg1]
    dsimp only
    rw [if_neg (by rw [histCex_pd0, histCex_pd1]; norm_num)]
  unfold bestEatenBin
  rw [histCex_eatenHistogram]
  rw [List.foldl_cons, hstep1, List.foldl_cons, hstep2, List.foldl_nil]

theorem histCex_binMatches :
    binMatches histCexEaten histCexTarget 2 1 = [(102400, 73728)] := by
  unfold binMatches
  rw [histCex_targetHistogram]
  rw [List.foldl_cons, List.foldl_nil]
  rw [if_neg (by norm_num)]
  dsimp only
  have havgT : targetBinAvg
      [⟨0, 2/5, 0, 0, 0, 0, 102400⟩, ⟨4, 2/5, 0, 0, 1, 0, 102400⟩] =
      (2/5, 0, 0) := by
    unfold targetBinAvg
    norm_num
  rw [havgT]
  dsimp only
  rw [histCex_bestEatenBin]
  rfl

end Lennings

namespace Lennings

theorem histCex_jsByte77 : jsByte ((3/10) * 255) = 77 := by
  unfold jsByte
  rw [round_eq]
  norm_num

theorem histCex_jsByte255 : jsByte ((1 : ℚ) * 255) = 255 := by
  unfold jsByte
  rw [round_eq]
  norm_num

theorem histCex_jsByte0 : jsByte ((0 : ℚ) * 255) = 0 := by
  unfold jsByte
  rw [round_eq]
  norm_num

theorem histCex_jsByte102 : jsByte (102 : ℚ) = 102 := by
  unfold jsByte
  rw [round_eq]
  norm_num

theorem histCex_bc1 :
    bestCandidate histCexEaten [] ⟨0, 2/5, 0, 0, 0, 0, 102400⟩ [0] =
      some (0, perceptualDistance (2/5) 0 0 (3/10) 0 0) := by
  unfold bestCandidate
  rw [List.foldl_cons, List.foldl_nil]
  unfold candStep
  rw [if_neg (by simp)]
  rw [if_pos trivial]
  rfl

theorem histCex_bc2 :
    bestCandidate histCexEaten [0] ⟨4, 2/5, 0, 0, 1, 0, 102400⟩ [0] = none := by
  unfold bestCandidate
  rw [List.foldl_cons, List.foldl_nil]
  unfold candStep
  rw [if_pos (List.mem_singleton_self 0)]

theorem histCex_step1 :
    histAssignStep histCexEaten histCexTarget 2 1 ((fun _ => 0), [], [])
      ⟨0, 2/5, 0, 0, 0, 0, 102400⟩ =
      (write4 (fun _ => 0) 0 (77, 0, 0, 255), [0], [some 0]) := by
  unfold histAssignStep
  rw [histCex_binMatches, histCex_eatenHistogram]
  dsimp only
  have hlk1 : List.lookup (102400 : ℤ) [(102400, 73728)] = some (73728 : ℤ) := by
    simp [List.lookup]
  have hlk2 : List.lookup (73728 : ℤ) [(73728, [0]), (258048, [1])] =
      some [0] := by
    simp [List.lookup]
  rw [hlk1]
  dsimp only
  rw [hlk2]
  dsimp only
  rw [histCex_bc1]
  dsimp only
  simp only [histCexEaten, List.getD, List.get?, Option.getD]
  rw [histCex_jsByte77, histCex_jsByte0]
  rfl

theorem histCex_step2 (buf : ℕ → ℤ) :
    histAssignStep histCexEaten histCexTarget 2 1 (buf, [0], [some 0])
      ⟨4, 2/5, 0, 0, 1, 0, 102400⟩ =
      (write4 buf 4 (102, 0, 0, 255), [0], [some 0, none]) := by
  unfold histAssignStep
  rw [histCex_binMatches, histCex_eatenHistogram]
  dsimp only
  have hlk1 : List.lookup (102400 : ℤ) [(102400, 73728)] = some (73728 : ℤ) := by
    simp [List.lookup]
  have hlk2 : List.lookup (73728 : ℤ) [(73728, [0]), (258048, [1])] =
      some [0] := by
    simp [List.lookup]
  rw [hlk1]
  dsimp only
  rw [hlk2]
  dsimp only
  rw [histCex_bc2]
  dsimp only
  have ht4 : histCexTarget 4 = 102 := by norm_num [histCexTarget]
  have ht5 : histCexTarget 5 = 0 := by norm_num [histCexTarget]
  have ht6 : histCexTarget 6 = 0 := by norm_num [histCexTarget]
  rw [ht4, ht5, ht6, histCex_jsByte102]
  have hz : jsByte (0 : ℚ) = 0 := by
    unfold jsByte
    rw [round_eq]
    norm_num
  rw [hz]
  rfl

/-- C1 counterexample: under quantized-histogram matching
(`performHistogramMatching`, src/unnamed/part_009 lines 415-558), a target
pixel whose matched bucket has no unused sample left is NOT left as a
transparent/black hole: with samples of red levels `{0.3, 1.0}` and a 2x1
target of byte color `(102, 0, 0)`, the second target pixel (choice trace
`none`: no sample assigned) is written as opaque `(102, 0, 0, 255)` — the
target image's own color, which differs from the byte color of every
harvested sample. -/
theorem performHistogramMatching_fills_no_hole :
    ((performHistogramMatching histCexEaten histCexTarget 2 1).2.2)[1]? =
        some none ∧
      (performHistogramMatching histCexEaten histCexTarget 2 1).1 4 = 102 ∧
      (performHistogramMatching histCexEaten histCexTarget 2 1).1 5 = 0 ∧
      (performHistogramMatching histCexEaten histCexTarget 2 1).1 6 = 0 ∧
      (performHistogramMatching histCexEaten histCexTarget 2 1).1 7 = 255 ∧
      ∀ p ∈ histCexEaten,
        jsByte (p.r * 255) ≠ 102 ∨ jsByte (p.g * 255) ≠ 0 ∨
          jsByte (p.b * 255) ≠ 0 := by
  have hfold : performHistogramMatching histCexEaten histCexTarget 2 1 =
      (write4 (write4 (fun _ => 0) 0 (77, 0, 0, 255)) 4 (102, 0, 0, 255),
        [0], [some 0, none]) := by
    unfold performHistogramMatching
    rw [histCex_targetScan, List.foldl_cons, histCex_step1, List.foldl_cons,
      histCex_step2, List.foldl_nil]
  rw [hfold]
  refine ⟨rfl, ?_, ?_, ?_, ?_, ?_⟩
  · simp [write4, Function.update_apply]
  · simp [write4, Function.update_apply]
  · simp [write4, Function.update_apply]
  · simp [write4, Function.update_apply]
  · intro p hp
    rcases List.mem_cons.mp hp with rfl | hp
    · left
      rw [histCex_jsByte77]
      norm_num
    · rcases List.mem_cons.mp hp with rfl | hp
      · left
        rw [histCex_jsByte255]
        norm_num
      · cases hp

end Lennings

namespace Lennings

/-- C1 (amended): across all three matching strategies the no-reuse half of
the claim holds — assigned sample indices are distinct and each assignment's
color is that of a genuine harvested sample — and the hole half holds for the
k-d strategy (an unmatched target pixel renders as transparent `(0,0,0,0)`)
and the mosaic strategy (an unassigned target pixel keeps the initial opaque
black `(0,0,0,255)`); the quantized-histogram strategy also never reuses a
sample, but (see the counterexample) it fills a target pixel with no unused
candidate with the target image's own color rather than leaving a hole. -/
theorem reconstruction_no_sample_reuse (eaten : List EPix)
    (targetData : ℕ → ℚ) (w h : ℕ) :
    (choiceIdxs (performKDTreeMatching eaten targetData w h).2).Nodup ∧
      (∀ pi ∈ (performKDTreeMatching eaten targetData w h).2.filterMap id,
        eaten[(pi : EPix × ℕ).2]? = some pi.1) ∧
      (∀ t : ℕ, (performKDTreeMatching eaten targetData w h).2[t]? =
          some none →
        (kdResult eaten targetData w h)[t]? = some (0, 0, 0, 0)) ∧
      ((mosaicAssignments eaten targetData w h).map
        fun a => a.2.originalIdx).Nodup ∧
      (∀ a ∈ mosaicAssignments eaten targetData w h,
        ∃ p : EPix, eaten[a.2.originalIdx]? = some p ∧
          a.2.r = p.r ∧ a.2.g = p.g ∧ a.2.b = p.b) ∧
      (∀ t : ℕ, (∀ a ∈ mosaicAssignments eaten targetData w h, a.1.idx ≠ t) →
        reconstructMosaic eaten targetData w h t = (0, 0, 0, 255)) ∧
      (histChoiceIdxs
        (performHistogramMatching eaten targetData w h).2.2).Nodup := by
  obtain ⟨hnd, hmem, _⟩ := performKDTreeMatching_inv eaten targetData w h
  refine ⟨hnd, hmem, ?_, mosaicAssignments_tile_nodup eaten targetData w h,
    ?_, (reconstructMosaic_spec eaten targetData w h).2,
    performHistogramMatching_nodup eaten targetData w h⟩
  · intro t ht
    unfold kdResult
    rw [List.getElem?_map, ht]
    rfl
  · intro a ha
    exact mosaicAssignments_tile_mem eaten targetData w h a ha

theorem reconstruction_no_sample_reuse_witness :
    (choiceIdxs (performKDTreeMatching [] (fun _ => 0) 0 0).2).Nodup :=
  (reconstruction_no_sample_reuse [] (fun _ => 0) 0 0).1

end Lennings

namespace Lennings

/-! ## Reproduction child cap (C3)

`cpuReproductionStep` (src/lenia.js lines 307-426) assigns empty slots to
parents: for each parent in order, the inner `while` loop pops empty slots
off the END of the `empties` array (`empties.pop()`) until
`childrenForParent = maxChildrenPerParent` or the array is exhausted. We
model the stack in pop order (`empties.reverse`), so one parent's turn takes
`take cap` of the stack and leaves `drop cap`.

The GPU pass 2 of `processReproduction` (src/lenia.js lines 1759-1821) runs
one fragment per EMPTY slot: it scans ALL slots, skips non-alive slots and
slots whose `state1.w < 900` (pass 1 flags ready parents with `w = 999`),
and keeps the candidate minimizing
`hash(idx + myIdx*0.1)` where `hash(n) = fract(sin(n)*43758.5453)`, starting
from `bestParentIdx = -1, bestDist = 1e10`; if the final index is `≥ 0` the
slot becomes that parent's child. Nothing limits how many empty slots pick
the same parent. -/

/-- One parent's turn of the CPU assignment loop: pop up to `cap` empty
slots off the stack and record them as this parent's children. -/
def cpuAssignStep (cap : ℕ) (st : List ℕ × List (ℕ × List ℕ))
    (pIdx : ℕ) : List ℕ × List (ℕ × List ℕ) :=
  (st.1.drop cap, st.2 ++ [(pIdx, st.1.take cap)])

/-- The child assignment computed by `cpuReproductionStep`: parents in
order, `empties` popped from the end. -/
def cpuAssign (parents empties : List ℕ) (cap : ℕ) :
    List ℕ × List (ℕ × List ℕ) :=
  parents.foldl (cpuAssignStep cap) (empties.reverse, [])

theorem cpuAssign_foldl_cap (cap : ℕ) (ps : List ℕ) :
    ∀ st : List ℕ × List (ℕ × List ℕ),
      (∀ pc ∈ st.2, pc.2.length ≤ cap) →
      ∀ pc ∈ (ps.foldl (cpuAssignStep cap) st).2, pc.2.length ≤ cap := by
  induction ps with
  | nil => intro st hst; exact hst
  | cons p ps ih =>
    intro st hst
    rw [List.foldl_cons]
    refine ih _ ?_
    intro pc hpc
    rcases List.mem_append.mp hpc with hold | hnew
    · exact hst pc hold
    · rcases List.mem_singleton.mp hnew with rfl
      rw [List.length_take]
      exact min_le_left _ _

/-- C3 (amended): the host-side batched pass `cpuReproductionStep` respects
the per-parent cap — every parent is assigned at most
`maxChildrenPerParent` children in one pass. (The GPU all-pairs pass does
not: see the counterexample.) -/
theorem cpuReproductionStep_child_cap (parents empties : List ℕ) (cap : ℕ) :
    ∀ pc ∈ (cpuAssign parents empties cap).2, pc.2.length ≤ cap := by
  unfold cpuAssign
  exact cpuAssign_foldl_cap cap parents _ (by simp)

theorem cpuReproductionStep_child_cap_witness :
    ((5, [9, 8]) : ℕ × List ℕ).2.length ≤ 2 :=
  cpuReproductionStep_child_cap [5] [8, 9] 2 (5, [9, 8]) (by decide)

/-- GLSL `hash(n) = fract(sin(n) * 43758.5453)`. -/
noncomputable def jsHash (n : ℝ) : ℝ :=
  Int.fract (Real.sin n * (437585453 / 10000))

/-- The per-slot data pass 2 reads: `state0.x` (alive iff `x > -10000`) and
the `state1.w` reproduction flag. -/
structure Slot where
  x : ℝ
  s1w : ℝ

open Classical in
/-- One iteration of pass 2's parent scan for the empty slot `myIdx`:
skip non-alive slots and unflagged slots, otherwise keep the candidate if
its selection score beats the best so far. -/
noncomputable def gpuSelStep (slots : List Slot) (myIdx : ℕ)
    (st : ℤ × ℝ) (idx : ℕ) : ℤ × ℝ :=
  if (slots.getD idx ⟨-100000, 0⟩).x ≤ -10000 then st
  else if (slots.getD idx ⟨-100000, 0⟩).s1w < 900 then st
  else if jsHash ((idx : ℝ) + (myIdx : ℝ) * (1/10)) < st.2 then
    ((idx : ℤ), jsHash ((idx : ℝ) + (myIdx : ℝ) * (1/10)))
  else st

/-- The parent selected by empty slot `myIdx` in pass 2: fold of the scan
from `(bestParentIdx, bestDist) = (-1, 1e10)`. -/
noncomputable def gpuSelectParent (slots : List Slot) (myIdx : ℕ) : ℤ × ℝ :=
  (List.range slots.length).foldl (gpuSelStep slots myIdx) (-1, 1e10)

open Classical in
/-- How many children parent `p` gains in one pass 2: the number of empty
slots whose selected parent is `p`. -/
noncomputable def gpuChildrenCount (slots : List Slot) (p : ℤ) : ℕ :=
  ((List.range slots.length).filter fun myIdx =>
    decide ((slots.getD myIdx ⟨-100000, 0⟩).x ≤ -10000) &&
      decide ((gpuSelectParent slots myIdx).1 = p)).length

/-- The counterexample state: slot 0 alive and flagged for reproduction
(`w = 999`), slots 1-3 empty. -/
def gpuCexSlots : List Slot :=
  [⟨0, 999⟩, ⟨-100000, 0⟩, ⟨-100000, 0⟩, ⟨-100000, 0⟩]

theorem jsHash_lt_one (n : ℝ) : jsHash n < 1 := by
  unfold jsHash
  exact Int.fract_lt_one _

theorem gpuCex_select (myIdx : ℕ) :
    gpuSelectParent gpuCexSlots myIdx =
      ((0 : ℤ), jsHash ((0 : ℝ) + (myIdx : ℝ) * (1/10))) := by
  unfold gpuSelectParent
  rw [show gpuCexSlots.length = 4 from rfl,
    show List.range 4 = [0, 1, 2, 3] by norm_num [List.range_succ]]
  have hdead : ∀ (st : ℤ × ℝ) (i : ℕ), i ∈ ([1, 2, 3] : List ℕ) →
      gpuSelStep gpuCexSlots myIdx st i = st := by
    intro st i hi
    fin_cases hi <;>
      · unfold gpuSelStep
        rw [if_pos (by norm_num [gpuCexSlots])]
  have hstep0 : gpuSelStep gpuCexSlots myIdx (-1, 1e10) 0 =
      ((0 : ℤ), jsHash ((0 : ℝ) + (myIdx : ℝ) * (1/10))) := by
    unfold gpuSelStep
    rw [if_neg (by norm_num [gpuCexSlots]),
      if_neg (by norm_num [gpuCexSlots])]
    dsimp only
    rw [if_pos (lt_trans (jsHash_lt_one _) (by norm_num))]
    norm_num
  rw [List.foldl_cons, hstep0, List.foldl_cons,
    hdead _ 1 (by norm_num), List.foldl_cons, hdead _ 2 (by norm_num),
    List.foldl_cons, hdead _ 3 (by norm_num), List.foldl_nil]

/-- C3 counterexample: in one GPU reproduction pass (`processReproduction`
pass 2, src/lenia.js lines 1759-1821), with one flagged parent (slot 0) and
three empty slots, every empty slot selects slot 0 as its parent, so parent
0 spawns 3 children — the pass enforces no per-parent cap, violating
`maxChildrenPerParent = 2`. -/
theorem processReproduction_exceeds_parent_cap :
    gpuChildrenCount gpuCexSlots 0 = 3 ∧ ¬(3 ≤ 2) := by
  constructor
  · unfold gpuChildrenCount
    rw [show gpuCexSlots.length = 4 from rfl,
      show List.range 4 = [0, 1, 2, 3] by norm_num [List.range_succ]]
    have halive : (decide ((gpuCexSlots.getD 0 ⟨-100000, 0⟩).x ≤ -10000) &&
        decide ((gpuSelectParent gpuCexSlots 0).1 = 0)) = false := by
      rw [decide_eq_false (by norm_num [gpuCexSlots]), Bool.false_and]
    have hsel : ∀ i : ℕ, i ∈ ([1, 2, 3] : List ℕ) →
        (decide ((gpuCexSlots.getD i ⟨-100000, 0⟩).x ≤ -10000) &&
          decide ((gpuSelectParent gpuCexSlots i).1 = 0)) = true := by
      intro i hi
      fin_cases hi <;>
        · rw [decide_eq_true (by norm_num [gpuCexSlots]),
            decide_eq_true (by rw [gpuCex_select]), Bool.true_and]
    rw [List.filter_cons, List.filter_cons, List.filter_cons,
      List.filter_cons, List.filter_nil, halive,
      hsel 1 (by norm_num), hsel 2 (by norm_num), hsel 3 (by norm_num)]
    rfl
  · norm_num

end Lennings

namespace Lennings

/-! ## Null reconstruction on empty harvest (C7)

`createCompressedReconstruction` (src/lenia.js lines 1038-1063) returns
`null` when `originalResourceData`/`originalAspectRatio` are unset, when
`getEatenPixels` yields zero samples, or when the computed dimensions have
`pixelCount === 0`; only otherwise does it build a reconstruction.  The
build itself (canvas rescale + matching) is abstracted as the `build`
parameter: C7 is about the guard control flow, not the build. -/

/-- The guard control flow of `createCompressedReconstruction`. -/
def createCompressedReconstruction {α : Type}
    (originalResourceData : Option (ℕ → ℚ)) (originalAspectRatio : Option ℚ)
    (pixels : ℕ → ℚ) (build : List EPix → Dims → α) : Option α :=
  match originalResourceData, originalAspectRatio with
  | some _, some a =>
    if (getEatenPixels pixels).length = 0 then none
    else if (computeOptimalDimensions (getEatenPixels pixels).length
        a).pixelCount = 0 then none
    else some (build (getEatenPixels pixels)
      (computeOptimalDimensions (getEatenPixels pixels).length a))
  | _, _ => none

/-- C7: with zero resource cells below the eaten threshold `0.1`,
`getEatenPixels` returns an empty list and `createCompressedReconstruction`
returns `null` (no reconstruction, not an error), for any resource data,
aspect ratio and build function. -/
theorem no_harvest_null_reconstruction {α : Type} (pixels : ℕ → ℚ)
    (h : ∀ y x, y < 512 → x < 512 →
      ¬ pixels ((y * 512 + x) * 4 + 3) < 1/10)
    (ord : Option (ℕ → ℚ)) (oar : Option ℚ)
    (build : List EPix → Dims → α) :
    getEatenPixels pixels = [] ∧
      createCompressedReconstruction ord oar pixels build = none := by
  have he := getEatenPixels_empty pixels h
  refine ⟨he, ?_⟩
  unfold createCompressedReconstruction
  rcases ord with _ | d
  · rfl
  · rcases oar with _ | a
    · rfl
    · rw [he]
      simp

theorem no_harvest_null_reconstruction_witness :
    getEatenPixels (fun _ => 1) = [] ∧
      createCompressedReconstruction (some fun _ => 0) (some 1) (fun _ => 1)
        (fun e d => (e, d)) = none :=
  no_harvest_null_reconstruction (fun _ => 1) (fun _ _ _ _ => by norm_num)
    (some fun _ => 0) (some 1) (fun e d => (e, d))

end Lennings

namespace Lennings

/-! ## Death dissolution (C8)

Step 2 of `processDeaths` (src/lenia.js lines 1657-1729): per resource cell,
every dying particle (alive, `energy <= 0`) within `radius * 2` of the cell
contributes `pref * intensity` to the color accumulator and `intensity` to
the alpha accumulator, with `radius = deathDissolveRadius * (1 + age *
deathAgeScale)` and
`intensity = exp(-(d/radius)^falloff) * deathEnergyAmount *
min(age * deathAgeScale, 0.5)`.  The cell is then written as
`vec4(res.rgb + addedColor, min(res.a + addedAlpha, 1.0))`: only the alpha
channel is clamped to 1. -/

/-- State read per particle by the dissolution shader: position (alive iff
`x > -10000`), energy, age (`currentStep - birthStep`), and preference
color. -/
structure DParticle where
  x : ℝ
  y : ℝ
  energy : ℝ
  age : ℝ
  prefR : ℝ
  prefG : ℝ
  prefB : ℝ

/-- `radius = deathDissolveRadius * (1.0 + age * deathAgeScale)`. -/
noncomputable def deathRadius (dissolveRadius ageScale age : ℝ) : ℝ :=
  dissolveRadius * (1 + age * ageScale)

/-- `intensity = exp(-(d/radius)^falloff) * deathEnergyAmount *
min(age * deathAgeScale, 0.5)`. -/
noncomputable def deathIntensity
    (dissolveRadius ageScale falloff amount d age : ℝ) : ℝ :=
  Real.exp (-((d / deathRadius dissolveRadius ageScale age) ^ falloff)) *
    amount * min (age * ageScale) (1/2)

open Classical in
/-- One particle's RGBA contribution to the cell at world position
`(wx, wy)`: zero unless the particle is alive, dying (`energy ≤ 0`) and
within `radius * 2`. -/
noncomputable def deathContribution
    (dissolveRadius ageScale falloff amount wx wy : ℝ) (p : DParticle) :
    ℝ × ℝ × ℝ × ℝ :=
  if p.x ≤ -10000 then (0, 0, 0, 0)
  else if 0 < p.energy then (0, 0, 0, 0)
  else if Real.sqrt ((wx - p.x) ^ 2 + (wy - p.y) ^ 2) <
      deathRadius dissolveRadius ageScale p.age * 2 then
    (p.prefR * deathIntensity dissolveRadius ageScale falloff amount
        (Real.sqrt ((wx - p.x) ^ 2 + (wy - p.y) ^ 2)) p.age,
      p.prefG * deathIntensity dissolveRadius ageScale falloff amount
        (Real.sqrt ((wx - p.x) ^ 2 + (wy - p.y) ^ 2)) p.age,
      p.prefB * deathIntensity dissolveRadius ageScale falloff amount
        (Real.sqrt ((wx - p.x) ^ 2 + (wy - p.y) ^ 2)) p.age,
      deathIntensity dissolveRadius ageScale falloff amount
        (Real.sqrt ((wx - p.x) ^ 2 + (wy - p.y) ^ 2)) p.age)
  else (0, 0, 0, 0)

/-- The shader's `(addedColor, addedAlpha)` accumulator over all
particles. -/
noncomputable def addedDissolution
    (dissolveRadius ageScale falloff amount wx wy : ℝ)
    (particles : List DParticle) : ℝ × ℝ × ℝ × ℝ :=
  particles.foldl
    (fun acc p =>
      (acc.1 + (deathContribution dissolveRadius ageScale falloff amount
          wx wy p).1,
        acc.2.1 + (deathContribution dissolveRadius ageScale falloff amount
          wx wy p).2.1,
        acc.2.2.1 + (deathContribution dissolveRadius ageScale falloff
          amount wx wy p).2.2.1,
        acc.2.2.2 + (deathContribution dissolveRadius ageScale falloff
          amount wx wy p).2.2.2))
    (0, 0, 0, 0)

/-- The cell's written value:
`vec4(res.rgb + addedColor, min(res.a + addedAlpha, 1.0))`. -/
noncomputable def processDeathsCell
    (dissolveRadius ageScale falloff amount wx wy : ℝ)
    (particles : List DParticle) (res : ℝ × ℝ × ℝ × ℝ) : ℝ × ℝ × ℝ × ℝ :=
  (res.1 + (addedDissolution dissolveRadius ageScale falloff amount wx wy
      particles).1,
    res.2.1 + (addedDissolution dissolveRadius ageScale falloff amount wx wy
      particles).2.1,
    res.2.2.1 + (addedDissolution dissolveRadius ageScale falloff amount wx
      wy particles).2.2.1,
    min (res.2.2.2 + (addedDissolution dissolveRadius ageScale falloff
      amount wx wy particles).2.2.2) 1)

/-- C8 (amended): the dissolution radius grows with age (for nonnegative
`deathDissolveRadius` and `deathAgeScale`), and the written cell's ALPHA
channel is bounded by 1; the RGB channels are written unclamped (see the
counterexample for a channel exceeding 1). -/
theorem processDeaths_alpha_bounded
    (dissolveRadius ageScale falloff amount wx wy : ℝ)
    (particles : List DParticle) (res : ℝ × ℝ × ℝ × ℝ) :
    (processDeathsCell dissolveRadius ageScale falloff amount wx wy
        particles res).2.2.2 ≤ 1 ∧
      ∀ a1 a2 : ℝ, 0 ≤ dissolveRadius → 0 ≤ ageScale → a1 ≤ a2 →
        deathRadius dissolveRadius ageScale a1 ≤
          deathRadius dissolveRadius ageScale a2 := by
  constructor
  · exact min_le_right _ 1
  · intro a1 a2 hdr has h12
    unfold deathRadius
    have h1 : 1 + a1 * ageScale ≤ 1 + a2 * ageScale := by nlinarith
    exact mul_le_mul_of_nonneg_left h1 hdr

theorem processDeaths_alpha_bounded_witness :
    (processDeathsCell 5 (1/500) 2 (3/10) 0 0 [] (0, 0, 0, 0)).2.2.2 ≤ 1 :=
  (processDeaths_alpha_bounded 5 (1/500) 2 (3/10) 0 0 [] (0, 0, 0, 0)).1

/-- The dying particle of the counterexample: at the origin, energy 0, age
250, white preference color. -/
def deathCexParticle : DParticle := ⟨0, 0, 0, 250, 1, 1, 1⟩

theorem deathCex_intensity :
    deathIntensity 5 (1/500) 2 (3/10) 0 250 = 3/20 := by
  unfold deathIntensity deathRadius
  rw [zero_div, Real.zero_rpow (by norm_num), neg_zero, Real.exp_zero]
  norm_num

theorem deathCex_contribution :
    deathContribution 5 (1/500) 2 (3/10) 0 0 deathCexParticle =
      (3/20, 3/20, 3/20, 3/20) := by
  have hd : Real.sqrt ((0 - deathCexParticle.x) ^ 2 +
      (0 - deathCexParticle.y) ^ 2) = 0 := by
    simp [deathCexParticle]
  unfold deathContribution
  rw [if_neg (by norm_num [deathCexParticle]),
    if_neg (by norm_num [deathCexParticle])]
  rw [hd]
  rw [if_pos (by unfold deathRadius; norm_num [deathCexParticle])]
  rw [show deathCexParticle.age = 250 from rfl, deathCex_intensity]
  norm_num [deathCexParticle]

/-- C8 counterexample: with the shipped defaults (`deathDissolveRadius = 5`,
`deathAgeScale = 0.002`, `deathEnergyFalloff = 2`,
`deathEnergyAmount = 0.3`), a dying age-250 white particle at the cell's own
position contributes intensity `0.15` to each channel; on a cell whose
resource is `(1, 1, 1, 0.5)` the written red channel is `1.15 > 1` — the
RGB channels are not bounded by 1 (only alpha is clamped). -/
theorem processDeaths_rgb_exceeds_one :
    1 < (processDeathsCell 5 (1/500) 2 (3/10) 0 0 [deathCexParticle]
      (1, 1, 1, 1/2)).1 := by
  unfold processDeathsCell addedDissolution
  rw [List.foldl_cons, List.foldl_nil]
  dsimp only
  rw [deathCex_contribution]
  norm_num

end Lennings
